import Mathlib

/-!
Verification development for the kelp market-making core.

The Go sources are shallowly embedded: decimal amount/price strings and
float64 values are modelled as exact rationals (ℚ), Go's
multiple-return-with-error idiom becomes `Except String`, external
collaborators (price feeds, the trades database, the venue client, the
wall clock, the random generator) become explicit input parameters, and
mutation of receiver fields becomes explicit state passing.  Each
definition mirrors one Go function or type and keeps its name.
-/

namespace Kelp

instance {ε α : Type} [DecidableEq ε] [DecidableEq α] : DecidableEq (Except ε α) := fun x y => by
  cases x <;> cases y <;>
    simp only [Except.error.injEq, Except.ok.injEq, reduceCtorEq] <;>
    exact inferInstance

/-! ## model.OrderConstraints and model.Number quantization -/

/-- model.OrderConstraints (precision configuration for a market). -/
structure OrderConstraints where
  pricePrecision : ℕ
  volumePrecision : ℕ
  minBaseVolume : ℚ
deriving DecidableEq

/-- Modelled from the spec: model.NumberFromFloat is not under src; the spec
requires every price/amount to be quantized to the configured decimal
precision before comparison or submission.  Quantizes x to the nearest
multiple of 10 ^ (- precision). -/
def numberFromFloat (x : ℚ) (precision : ℕ) : ℚ :=
  (round (x * 10 ^ precision) : ℚ) / 10 ^ precision

/-! ## plugins.rateOffset -/

/-- plugins.rateOffset (staticSpreadLevelProvider.go): how much to offset rates by. -/
structure RateOffset where
  percent : ℚ
  absolute : ℚ
  percentFirst : Bool
  invert : Bool
deriving DecidableEq

/-- Modelled from the spec: the rateOffset.apply method is not under src (only
its caller sellTwapLevelProvider.makeRoundInfo is).  Reconstructed from the
rateOffset field comments in staticSpreadLevelProvider.go and the identical
inline offset logic in staticSpreadLevelProvider.GetLevels: when invert is
set the offset is applied to the reciprocal rate and inverted back; with
percentFirst the rate becomes (rate * (1 + percent)) + absolute, otherwise
(rate + absolute) * (1 + percent); a zero percent and zero absolute leave
the rate unmodified.  Returns (adjusted price, wasModified). -/
def RateOffset.apply (r : RateOffset) (price : ℚ) : ℚ × Bool :=
  if r.percent ≠ 0 ∨ r.absolute ≠ 0 then
    let p1 := if r.invert then 1 / price else price
    let scaleFactor := 1 + r.percent
    let p2 := if r.percentFirst then p1 * scaleFactor + r.absolute
              else (p1 + r.absolute) * scaleFactor
    let p3 := if r.invert then 1 / p2 else p2
    (p3, true)
  else
    (price, false)

/-! ## plugins.staticSpreadLevelProvider -/

/-- api.Level: one layer of the desired orderbook ladder. -/
structure Level where
  price : ℚ
  amount : ℚ
deriving DecidableEq

/-- plugins.staticLevel: a statically configured (SPREAD, AMOUNT) layer. -/
structure StaticLevel where
  SPREAD : ℚ
  AMOUNT : ℚ
deriving DecidableEq

/-- plugins.MaxDailySell: maximum amount to sell per UTC day. -/
structure MaxDailySell where
  amount : ℚ
  assetType : String
deriving DecidableEq

/-- plugins.maxSold: the result row of the daily sold-volume SQL queries. -/
structure MaxSold where
  sumBaseSold : ℚ
  sumQuoteCost : ℚ
deriving DecidableEq

/-- const maxSellLimitsTolerancePct = 0.001 -/
def maxSellLimitsTolerancePct : ℚ := 1 / 1000

/-- plugins.staticSpreadLevelProvider.  The *sql.DB handle is modelled by the
Bool hasTradesDB (tradesDB != nil); the baseAsset/quoteAsset strings are only
used to build SQL queries and log lines and are elided. -/
structure StaticSpreadLevelProvider where
  staticLevels : List StaticLevel
  amountOfBase : ℚ
  offset : RateOffset
  orderConstraints : OrderConstraints
  hasTradesDB : Bool
  maxDailySell : MaxDailySell
  minSellPrice : ℚ

/-- The capAmountFn closure selected inside staticSpreadLevelProvider.GetLevels:
either the identity default, or one of the two cap functions partially applied
to the remaining daily allowance. -/
inductive CapFn where
  | noCap : CapFn
  | baseCap (maxSellAmountRemaining : ℚ) : CapFn
  | quoteCap (maxSellAmountRemaining : ℚ) : CapFn
deriving DecidableEq

/-- staticSpreadLevelProvider.capSellAmountUsingBaseConstraint -/
def capSellAmountUsingBaseConstraint (_maxAssetBase maxSellAmountRemainingBaseOrQuote
    baseAmountSoFar desiredAmountBase _price : ℚ) : ℚ :=
  let currentMaxSellAmountRemaining := maxSellAmountRemainingBaseOrQuote - baseAmountSoFar
  if desiredAmountBase ≤ currentMaxSellAmountRemaining then desiredAmountBase
  else currentMaxSellAmountRemaining

/-- staticSpreadLevelProvider.capSellAmountUsingQuoteConstraint -/
def capSellAmountUsingQuoteConstraint (_maxAssetBase maxSellAmountRemainingBaseOrQuote
    baseAmountSoFar desiredAmountBase price : ℚ) : ℚ :=
  let quoteAmountSoFar := baseAmountSoFar * price
  let desiredAmountQuote := desiredAmountBase * price
  let currentMaxSellAmountRemaining := maxSellAmountRemainingBaseOrQuote - quoteAmountSoFar
  if desiredAmountQuote ≤ currentMaxSellAmountRemaining then desiredAmountBase
  else currentMaxSellAmountRemaining / price

/-- Dispatch of the selected capAmountFn closure. -/
def applyCapFn : CapFn → ℚ → ℚ → ℚ → ℚ → ℚ
  | CapFn.noCap, _maxAssetBase, _baseAmountSoFar, desiredAmountBase, _price =>
      desiredAmountBase
  | CapFn.baseCap rem, maxAssetBase, baseAmountSoFar, desiredAmountBase, price =>
      capSellAmountUsingBaseConstraint maxAssetBase rem baseAmountSoFar desiredAmountBase price
  | CapFn.quoteCap rem, maxAssetBase, baseAmountSoFar, desiredAmountBase, price =>
      capSellAmountUsingQuoteConstraint maxAssetBase rem baseAmountSoFar desiredAmountBase price

/-- The per-level for-loop of staticSpreadLevelProvider.GetLevels (lines
185-205): walks the configured static levels, skipping levels priced under
minSellPrice ("continue") and ending the walk at the first non-positive
capped amount ("break"). -/
def staticLevelsLoop (p : StaticSpreadLevelProvider) (capFn : CapFn)
    (centerPrice maxAssetBase : ℚ) :
    List StaticLevel → ℚ → List Level
  | [], _baseAmountSoFar => []
  | sl :: rest, baseAmountSoFar =>
    let absoluteSpread := centerPrice * sl.SPREAD
    let price := numberFromFloat (centerPrice + absoluteSpread) p.orderConstraints.pricePrecision
    if p.minSellPrice > 0 ∧ price < p.minSellPrice then
      staticLevelsLoop p capFn centerPrice maxAssetBase rest baseAmountSoFar
    else
      let amount := numberFromFloat (sl.AMOUNT * p.amountOfBase) p.orderConstraints.volumePrecision
      let amountCapped := applyCapFn capFn maxAssetBase baseAmountSoFar amount price
      if amountCapped ≤ 0 then []
      else
        let amountCappedNumber :=
          numberFromFloat amountCapped p.orderConstraints.volumePrecision
        { price := price, amount := amountCappedNumber } ::
          staticLevelsLoop p capFn centerPrice maxAssetBase rest
            (baseAmountSoFar + amountCappedNumber)

/-- The maxDailySell bookkeeping phase of staticSpreadLevelProvider.GetLevels
(lines 100-164): decides between proceeding with a capAmountFn (some capFn),
returning the empty ladder with a nil error when a daily threshold is crossed
(none), or failing (error on the query, or an invalid assetType). -/
def staticCapPhase (p : StaticSpreadLevelProvider)
    (maxSoldResult : Except String MaxSold) : Except String (Option CapFn) :=
  if p.hasTradesDB = false ∨ p.maxDailySell.assetType = "" then
    Except.ok (some CapFn.noCap)
  else
    match maxSoldResult with
    | Except.error e => Except.error ("could not load max sold amounts for today: " ++ e)
    | Except.ok mSold =>
      if p.maxDailySell.assetType = "base" ∧
          mSold.sumBaseSold ≥ p.maxDailySell.amount * (1 - maxSellLimitsTolerancePct) then
        Except.ok none
      else if p.maxDailySell.assetType = "quote" ∧
          mSold.sumQuoteCost ≥ p.maxDailySell.amount * (1 - maxSellLimitsTolerancePct) then
        Except.ok none
      else if p.maxDailySell.assetType ≠ "quote" ∧ p.maxDailySell.assetType ≠ "base" then
        Except.error "staticSpreadLevelProvider has invalid value for maxDailySell.assetType"
      else if p.maxDailySell.assetType = "base" then
        Except.ok (some (CapFn.baseCap (p.maxDailySell.amount - mSold.sumBaseSold)))
      else
        Except.ok (some (CapFn.quoteCap (p.maxDailySell.amount - mSold.sumQuoteCost)))

/-- staticSpreadLevelProvider.GetLevels.  External inputs become parameters:
centerPriceResult is pf.GetCenterPrice() and maxSoldResult is
maxSoldToday(today) against the trades database. -/
def StaticSpreadLevelProvider.getLevels (p : StaticSpreadLevelProvider)
    (centerPriceResult : Except String ℚ) (maxSoldResult : Except String MaxSold)
    (maxAssetBase _maxAssetQuote : ℚ) : Except String (List Level) :=
  match centerPriceResult with
  | Except.error e => Except.error e
  | Except.ok centerPrice0 =>
    match staticCapPhase p maxSoldResult with
    | Except.error e => Except.error e
    | Except.ok none => Except.ok []
    | Except.ok (some capFn) =>
      -- lines 166-181: the rate offset is applied to the center price in place;
      -- RateOffset.apply is the same computation factored out
      let centerPrice := (RateOffset.apply p.offset centerPrice0).1
      Except.ok (staticLevelsLoop p capFn centerPrice maxAssetBase p.staticLevels 0)

/-! ## plugins.sellTwapLevelProvider -/

/-- const secondsInHour -/
def secondsInHour : ℕ := 60 * 60

/-- const secondsInDay -/
def secondsInDay : ℕ := 24 * secondsInHour

/-- plugins.volumeFilter, reduced to the two external database queries the
sellTwapLevelProvider performs against it: mustGetBaseAssetCapInBaseUnits and
dailyValuesByDate(today).baseVol (one call of GetLevels only ever queries the
current date). -/
structure VolumeFilter where
  baseAssetCapResult : Except String ℚ
  dailyBaseVolResult : Except String ℚ
deriving DecidableEq

/-- plugins.dynamicBucketValues -/
structure DynamicBucketValues where
  isNew : Bool
  roundID : ℕ
  dayBaseSold : ℚ
  baseSold : ℚ
  now : ℕ
deriving DecidableEq

/-- plugins.bucketInfo.  Times are UTC unix seconds (the Go code only ever
uses the Unix()-second values of startTime/endTime in its arithmetic). -/
structure BucketInfo where
  ID : ℤ
  startTime : ℕ
  endTime : ℕ
  sizeSeconds : ℕ
  totalBuckets : ℤ
  totalBucketsToSell : ℤ
  dayBaseSoldStart : ℚ
  dayBaseCapacity : ℚ
  totalBaseSurplusStart : ℚ
  baseSurplusIncluded : ℚ
  baseCapacity : ℚ
  minOrderSizeBase : ℚ
  dynamicValues : DynamicBucketValues
deriving DecidableEq

/-- bucketInfo.dayBaseRemaining -/
def BucketInfo.dayBaseRemaining (b : BucketInfo) : ℚ :=
  b.dayBaseCapacity - b.dynamicValues.dayBaseSold

/-- bucketInfo.baseRemaining -/
def BucketInfo.baseRemaining (b : BucketInfo) : ℚ :=
  b.baseCapacity - b.dynamicValues.baseSold

/-- bucketInfo.UUID: the sha1 hash of a string formatted from the time
partition (startTime, endTime) and the config partition (totalBuckets,
totalBucketsToSell, minOrderSizeBase); modelled as the injective pre-hash
content tuple. -/
def BucketInfo.uuid (b : BucketInfo) : ℕ × ℕ × ℤ × ℤ × ℚ :=
  (b.startTime, b.endTime, b.totalBuckets, b.totalBucketsToSell, b.minOrderSizeBase)

/-- plugins.roundInfo -/
structure RoundInfo where
  ID : ℕ
  bucketID : ℤ
  bucketUUID : ℕ × ℕ × ℤ × ℤ × ℚ
  now : ℕ
  secondsElapsedToday : ℕ
  sizeBaseCapped : ℚ
  price : ℚ

/-- plugins.sellTwapLevelProvider.  The price feed and the seeded random
generator are external collaborators and appear as parameters of getLevels;
the cross-tick mutable fields activeBucket and previousRoundID are explicit
here and their updated values are returned by getLevels. -/
structure SellTwapLevelProvider where
  offset : RateOffset
  orderConstraints : OrderConstraints
  dowFilter : Fin 7 → VolumeFilter
  numHoursToSell : ℕ
  parentBucketSizeSeconds : ℕ
  distributeSurplusOverRemainingIntervalsPercentCeiling : ℚ
  exponentialSmoothingFactor : ℚ
  minChildOrderSizePercentOfParent : ℚ
  activeBucket : Option BucketInfo
  previousRoundID : Option ℕ

/-- floorDate(t).Unix(): midnight UTC at the start of t's day. -/
def floorDateUnix (now : ℕ) : ℕ := now - now % secondsInDay

/-- ceilDate(t).Unix(): the next midnight minus one nanosecond, truncated to
seconds, i.e. the last whole second of t's day. -/
def ceilDateUnix (now : ℕ) : ℕ := floorDateUnix now + secondsInDay - 1

/-- time.Time.Weekday() of a UTC unix timestamp: the unix epoch 1970-01-01
was a Thursday (4 in Go's Sunday = 0 numbering). -/
def weekdayOfUnix (now : ℕ) : Fin 7 := ⟨(now / secondsInDay + 4) % 7, by omega⟩

/-- sellTwapLevelProvider.makeFirstBucketFrame.  The two database queries
are read from the day's VolumeFilter. -/
def SellTwapLevelProvider.makeFirstBucketFrame (p : SellTwapLevelProvider)
    (now : ℕ) (volFilter : VolumeFilter) (startTime endTime : ℕ)
    (totalBuckets : ℤ) (bID : ℤ) (rID : ℕ) : Except String BucketInfo :=
  let totalBucketsToSell : ℤ :=
    ⌈((p.numHoursToSell * secondsInHour : ℕ) : ℚ) / (p.parentBucketSizeSeconds : ℚ)⌉
  match volFilter.baseAssetCapResult with
  | Except.error e => Except.error ("could not fetch base asset cap in base units: " ++ e)
  | Except.ok dayBaseCapacity =>
    match volFilter.dailyBaseVolResult with
    | Except.error e => Except.error ("could not fetch daily values for today: " ++ e)
    | Except.ok dayBaseSoldStart =>
      let totalBaseSurplusStart : ℚ := 0
      let baseSurplus : ℚ := 0
      let baseCapacity := dayBaseCapacity / (totalBucketsToSell : ℚ)
      let minOrderSizeBase := p.minChildOrderSizePercentOfParent * baseCapacity
      -- upon instantiation the first bucket frame has nothing sold beyond the start
      let dynamicValues : DynamicBucketValues :=
        { isNew := true, roundID := rID, dayBaseSold := dayBaseSoldStart,
          baseSold := 0, now := now }
      Except.ok
        { ID := bID, startTime := startTime, endTime := endTime,
          sizeSeconds := p.parentBucketSizeSeconds, totalBuckets := totalBuckets,
          totalBucketsToSell := totalBucketsToSell,
          dayBaseSoldStart := dayBaseSoldStart, dayBaseCapacity := dayBaseCapacity,
          totalBaseSurplusStart := totalBaseSurplusStart,
          baseSurplusIncluded := baseSurplus, baseCapacity := baseCapacity,
          minOrderSizeBase := minOrderSizeBase, dynamicValues := dynamicValues }

/-- sellTwapLevelProvider.updateExistingBucket; active is p.activeBucket,
which the caller has checked to be non-nil. -/
def SellTwapLevelProvider.updateExistingBucket (_p : SellTwapLevelProvider)
    (now : ℕ) (volFilter : VolumeFilter) (rID : ℕ) (active : BucketInfo) :
    Except String BucketInfo :=
  match volFilter.dailyBaseVolResult with
  | Except.error e => Except.error ("could not fetch daily values for today: " ++ e)
  | Except.ok dayBaseSold =>
    Except.ok
      { active with
        dynamicValues :=
          { isNew := false, roundID := rID, dayBaseSold := dayBaseSold,
            baseSold := dayBaseSold - active.dayBaseSoldStart, now := now } }

/-- sellTwapLevelProvider.firstDistributionOfBaseSurplus: the first term of
the geometric-series allocation a = Sn (r - 1) / (r ^ n - 1) with
n = ceil(distribution-ceiling-fraction * remaining buckets). -/
def SellTwapLevelProvider.firstDistributionOfBaseSurplus (p : SellTwapLevelProvider)
    (totalSurplus : ℚ) (totalRemainingBuckets : ℤ) : ℚ :=
  let sn := totalSurplus
  let r := p.exponentialSmoothingFactor
  let n : ℤ :=
    ⌈p.distributeSurplusOverRemainingIntervalsPercentCeiling * (totalRemainingBuckets : ℚ)⌉
  sn * (r - 1) / (r ^ n - 1)

/-- sellTwapLevelProvider.cutoverToNewBucketSameDay; active is p.activeBucket. -/
def SellTwapLevelProvider.cutoverToNewBucketSameDay (p : SellTwapLevelProvider)
    (active : BucketInfo) (newBucket : BucketInfo) : Except String BucketInfo :=
  if newBucket.ID ≠ active.ID + 1 then
    Except.error "new bucketID needs to be one more than the previous bucketID"
  else
    let thisBucketDayBaseSoldStart := active.dynamicValues.dayBaseSold
    -- pull dayBaseSold from what was queried; can be more than what was sold in the last bucket
    let thisBucketDayBaseSold := newBucket.dayBaseSoldStart
    let nb1 :=
      { newBucket with
        dayBaseSoldStart := thisBucketDayBaseSoldStart,
        dynamicValues :=
          { isNew := true, roundID := newBucket.dynamicValues.roundID,
            dayBaseSold := thisBucketDayBaseSold,
            baseSold := thisBucketDayBaseSold - thisBucketDayBaseSoldStart,
            now := newBucket.dynamicValues.now } }
    let averageBaseCapacity := nb1.baseCapacity
    -- buckets are 0-indexed, so the bucketID equals the number of previous buckets
    let numPreviousBuckets : ℤ := nb1.ID
    let expectedSold := averageBaseCapacity * (numPreviousBuckets : ℚ)
    let totalBaseSurplusStart := expectedSold - thisBucketDayBaseSoldStart
    let totalRemainingBuckets : ℤ := nb1.totalBuckets - numPreviousBuckets
    let baseSurplusIncluded :=
      p.firstDistributionOfBaseSurplus totalBaseSurplusStart totalRemainingBuckets
    Except.ok
      { nb1 with
        totalBaseSurplusStart := totalBaseSurplusStart,
        baseSurplusIncluded := baseSurplusIncluded,
        baseCapacity := averageBaseCapacity + baseSurplusIncluded }

/-- sellTwapLevelProvider.makeRoundID -/
def SellTwapLevelProvider.makeRoundID (p : SellTwapLevelProvider) : ℕ :=
  match p.previousRoundID with
  | none => 0
  | some r => r + 1

/-- sellTwapLevelProvider.makeBucketInfo -/
def SellTwapLevelProvider.makeBucketInfo (p : SellTwapLevelProvider) (now : ℕ)
    (volFilter : VolumeFilter) (rID : ℕ) : Except String BucketInfo :=
  let dayStartTime := floorDateUnix now
  let dayEndTime := ceilDateUnix now
  let secondsElapsedToday := now - dayStartTime
  let bIDn : ℕ := secondsElapsedToday / p.parentBucketSizeSeconds
  let bID : ℤ := (bIDn : ℤ)
  let startTime := dayStartTime + bIDn * p.parentBucketSizeSeconds
  -- endTime = startTime + bucket size - 1ns, truncated to unix seconds
  let endTime := startTime + p.parentBucketSizeSeconds - 1
  let totalBuckets : ℤ :=
    ⌈((dayEndTime - dayStartTime : ℕ) : ℚ) / (p.parentBucketSizeSeconds : ℚ)⌉
  match p.activeBucket with
  | none =>
    -- bucket on bot load
    p.makeFirstBucketFrame now volFilter startTime endTime totalBuckets bID rID
  | some active =>
    if bID = active.ID then
      -- new round in the same bucket
      p.updateExistingBucket now volFilter rID active
    else
      -- a new bucket needs to be created
      match p.makeFirstBucketFrame now volFilter startTime endTime totalBuckets bID rID with
      | Except.error e =>
        Except.error ("unable to make first bucket frame when cutting over: " ++ e)
      | Except.ok newBucket =>
        if newBucket.ID = 0 then Except.ok newBucket -- on a new day
        else p.cutoverToNewBucketSameDay active newBucket -- on the same day

/-- sellTwapLevelProvider.makeRoundInfo.  startPf.GetPrice() is the
feedPriceResult parameter and random.Float64() is the rand01 parameter
(the seeded generator yields a deterministic sequence in [0, 1)). -/
def SellTwapLevelProvider.makeRoundInfo (p : SellTwapLevelProvider) (rID : ℕ)
    (now : ℕ) (bucket : BucketInfo) (feedPriceResult : Except String ℚ)
    (rand01 : ℚ) : Except String RoundInfo :=
  let dayStartTime := floorDateUnix now
  let secondsElapsedToday := now - dayStartTime
  let sizeBaseCapped :=
    if bucket.baseRemaining ≤ bucket.minOrderSizeBase then bucket.baseRemaining
    else bucket.minOrderSizeBase + rand01 * (bucket.baseRemaining - bucket.minOrderSizeBase)
  match feedPriceResult with
  | Except.error e => Except.error ("could not get price from feed: " ++ e)
  | Except.ok price =>
    let adjustedPrice := (RateOffset.apply p.offset price).1
    Except.ok
      { ID := rID, bucketID := bucket.ID, bucketUUID := bucket.uuid, now := now,
        secondsElapsedToday := secondsElapsedToday,
        sizeBaseCapped := sizeBaseCapped, price := adjustedPrice }

/-- sellTwapLevelProvider.GetLevels.  now is time.Now().UTC() in unix seconds;
the Go method stores the new bucket and round id back into the provider, which
is modelled by returning them alongside the single-level ladder. -/
def SellTwapLevelProvider.getLevels (p : SellTwapLevelProvider) (now : ℕ)
    (feedPriceResult : Except String ℚ) (rand01 : ℚ)
    (_maxAssetBase _maxAssetQuote : ℚ) :
    Except String (List Level × BucketInfo × ℕ) :=
  let volFilter := p.dowFilter (weekdayOfUnix now)
  let rID := p.makeRoundID
  match p.makeBucketInfo now volFilter rID with
  | Except.error e => Except.error ("unable to make bucketInfo: " ++ e)
  | Except.ok bucket =>
    match p.makeRoundInfo rID now bucket feedPriceResult rand01 with
    | Except.error e => Except.error ("unable to make roundInfo: " ++ e)
    | Except.ok round =>
      Except.ok
        ([{ price := numberFromFloat round.price p.orderConstraints.pricePrecision,
            amount := numberFromFloat round.sizeBaseCapped p.orderConstraints.volumePrecision }],
         bucket, round.ID)

/-! ## hProtocol.Offer / txnbuild.ManageSellOffer (shared by the trader loop
and the submit filter) -/

/-- horizon asset: only equality of assets matters to the embedded code. -/
structure HAsset where
  code : String
  issuer : String
deriving DecidableEq

/-- hProtocol.Offer, restricted to the fields the embedded code reads.
Amount and Price are decimal strings modelled by their rational values;
PriceR is the (N, D) rational price. -/
structure HOffer where
  ID : ℤ
  seller : String
  selling : HAsset
  buying : HAsset
  amount : ℚ
  price : ℚ
  priceRN : ℕ
  priceRD : ℕ
deriving DecidableEq

/-! ## trader.Trader (control loop) -/

/-- api.Snapshots: the Start/End snapshot maps hold externally loaded data
whose contents never influence the control flow; they are modelled by tags. -/
structure Snapshots where
  startData : ℕ
  endData : ℕ
deriving DecidableEq

/-- build.TransactionMutator: an operation handed to sdex.SubmitOps.  Delete
operations constructed by sdex.DeleteAllOffers carry the offer they delete;
all other mutations are abstract. -/
inductive TxMutator where
  | deleteOffer (o : HOffer) : TxMutator
  | op (tag : ℕ) : TxMutator
deriving DecidableEq

/-- Modelled from the spec: sdex.DeleteAllOffers (plugins.SDEX) is not under
src; per the spec the venue adapter constructs, but does not execute, one
cancellation operation per offer. -/
def sdexDeleteAllOffers (offers : List HOffer) : List TxMutator :=
  offers.map TxMutator.deleteOffer

/-- The per-tick trader state the control loop owns: the cached offers this
bot is tracking on each side plus the snapshot history. -/
structure TraderState where
  sellingAOffers : List HOffer
  buyingAOffers : List HOffer
  history : List Snapshots
deriving DecidableEq

/-- The externally observable calls Trader.update makes, in order.  Each
strategy lifecycle call and each sdex submission is recorded. -/
inductive TraderAction where
  | snapshotStart : TraderAction
  | stratPreUpdate : TraderAction
  | stratPrune : TraderAction
  | submitOps (ops : List TxMutator) : TraderAction
  | resetCachedXlmExposure : TraderAction
  | stratUpdateWithOps : TraderAction
  | snapshotEnd : TraderAction
  | stratPostUpdate : TraderAction
  | pruneHistoryCall : TraderAction
deriving DecidableEq

/-- One tick's worth of results from the external collaborators the loop
calls (the horizon client, the strategy, sdex). -/
structure TraderTickEnv where
  snapshotStartResult : Except String Unit
  preUpdateResult : Except String Unit
  prunedOps : List TxMutator
  prunedBuying : List HOffer
  prunedSelling : List HOffer
  submitPruneResult : Except String Unit
  updateWithOpsResult : Except String (List TxMutator)
  submitUpdateResult : Except String Unit
  snapshotEndResult : Except String Unit
  postUpdateResult : Except String Unit
  maxHistory : ℤ

/-- Trader.deleteAllOffers: deletes all offers for the bot (not all offers on
the account) — builds delete ops from the two cached offer lists, clears both
caches, and submits the ops when there are any (a submission error is only
logged). -/
def Trader.deleteAllOffers (st : TraderState) : TraderState × List TraderAction :=
  let dOps := sdexDeleteAllOffers st.sellingAOffers ++ sdexDeleteAllOffers st.buyingAOffers
  let st2 := { st with sellingAOffers := [], buyingAOffers := [] }
  (st2, if 0 < dOps.length then [TraderAction.submitOps dOps] else [])

/-- Trader.pruneHistory.  The Go code reslices history[:MaxHistory] exactly
when MaxHistory exceeds the current length; that reslice reaches past the
length of the freshly copied backing array and panics (modelled as none).
Otherwise the history is left untouched. -/
def Trader.pruneHistory (maxHistory : ℤ) (history : List Snapshots) :
    Option (List Snapshots) :=
  if (history.length : ℤ) < maxHistory then none else some history

/-- The externally visible recovery trace of Trader.deleteAllOffers: one
submission containing exactly one delete per tracked offer on both sides,
when there are any offers to cancel. -/
def cancelTrace (selling buying : List HOffer) : List TraderAction :=
  if 0 < (selling.map TxMutator.deleteOffer ++ buying.map TxMutator.deleteOffer).length then
    [TraderAction.submitOps (selling.map TxMutator.deleteOffer ++
      buying.map TxMutator.deleteOffer)]
  else []

/-- Trader.update: one tick of the control loop.  none models a runtime
panic; on success the updated trader state and the ordered trace of external
calls are returned. -/
def Trader.update (env : TraderTickEnv) (st : TraderState) :
    Option (TraderState × List TraderAction) :=
  -- t.state.History = append([]api.Snapshots..., t.state.History...): despite
  -- the source comment this copies the history and adds NO new element
  let history1 : List Snapshots := [] ++ st.history
  match history1.head? with
  | none => none -- t.state.History[0] indexes an empty slice: index out of range panic
  | some _ =>
    let st1 : TraderState := { st with history := history1 }
    let fail : TraderState → List TraderAction →
        Option (TraderState × List TraderAction) := fun s acts =>
      let r := Trader.deleteAllOffers s
      some (r.1, acts ++ r.2)
    -- stages 8-10: end snapshot, PostUpdate, pruneHistory
    let afterSubmit : TraderState → List TraderAction →
        Option (TraderState × List TraderAction) := fun s acts =>
      match env.snapshotEndResult with
      | Except.error _ => fail s (acts ++ [TraderAction.snapshotEnd])
      | Except.ok _ =>
        match env.postUpdateResult with
        | Except.error _ =>
          fail s (acts ++ [TraderAction.snapshotEnd, TraderAction.stratPostUpdate])
        | Except.ok _ =>
          match Trader.pruneHistory env.maxHistory s.history with
          | none => none
          | some h2 =>
            some ({ s with history := h2 },
              acts ++ [TraderAction.snapshotEnd, TraderAction.stratPostUpdate,
                TraderAction.pruneHistoryCall])
    -- stages 5-7: reset cached exposure, UpdateWithOps, submit the ops
    let afterPrune : TraderState → List TraderAction →
        Option (TraderState × List TraderAction) := fun s acts =>
      let acts1 := acts ++ [TraderAction.resetCachedXlmExposure, TraderAction.stratUpdateWithOps]
      match env.updateWithOpsResult with
      | Except.error _ => fail s acts1
      | Except.ok ops =>
        if 0 < ops.length then
          match env.submitUpdateResult with
          | Except.error _ => fail s (acts1 ++ [TraderAction.submitOps ops])
          | Except.ok _ => afterSubmit s (acts1 ++ [TraderAction.submitOps ops])
        else afterSubmit s acts1
    match env.snapshotStartResult with
    | Except.error _ => fail st1 [TraderAction.snapshotStart]
    | Except.ok _ =>
      match env.preUpdateResult with
      | Except.error _ =>
        fail st1 [TraderAction.snapshotStart, TraderAction.stratPreUpdate]
      | Except.ok _ =>
        -- strat.PruneExistingOffers replaces both cached offer lists
        let st2 : TraderState :=
          { st1 with buyingAOffers := env.prunedBuying, sellingAOffers := env.prunedSelling }
        let acts2 := [TraderAction.snapshotStart, TraderAction.stratPreUpdate,
          TraderAction.stratPrune]
        if 0 < env.prunedOps.length then
          match env.submitPruneResult with
          | Except.error _ =>
            fail st2 (acts2 ++ [TraderAction.submitOps env.prunedOps])
          | Except.ok _ =>
            afterPrune st2 (acts2 ++ [TraderAction.submitOps env.prunedOps])
        else afterPrune st2 acts2

/-! ## plugins.submitFilter (filterOps and helpers) -/

/-- txnbuild.ManageSellOffer, restricted to the fields the filter reads.
Amount and Price are decimal strings modelled by their rational values (the
delete sentinel Amount == "0" becomes amount = 0). -/
structure MSO where
  selling : HAsset
  buying : HAsset
  amount : ℚ
  price : ℚ
  offerID : ℤ
  sourceAccount : String
deriving DecidableEq

/-- txnbuild.Operation: a ManageSellOffer or some other operation type (the
filter passes the latter through untouched). -/
inductive Operation where
  | mso (m : MSO) : Operation
  | other (tag : ℕ) : Operation
deriving DecidableEq

/-- plugins.filterFn -/
def FilterFn : Type := MSO → Except String (Option MSO × Bool)

/-- plugins.filterCounter.  The Go counters are uint8 statistics used only
for log lines; idx is the merge cursor. -/
structure FilterCounter where
  idx : ℕ
  kept : ℕ
  dropped : ℕ
  transformed : ℕ
  ignored : ℕ
deriving DecidableEq

/-- The mutable state of one filterOps run: the three counters and the
accumulated output list. -/
structure FilterState where
  opCounter : FilterCounter
  buyCounter : FilterCounter
  sellCounter : FilterCounter
  filteredOps : List Operation
deriving DecidableEq

/-- Which side's offer list / counter selectBuySellList picked. -/
inductive OfferSide where
  | sell : OfferSide
  | buy : OfferSide
deriving DecidableEq

/-- plugins.ignoreOfferIDs: the offer IDs already referenced by an incoming
ManageSellOffer operation. -/
def ignoreOfferIDs (ops : List Operation) : List ℤ :=
  ops.filterMap fun op =>
    match op with
    | Operation.mso o => some o.offerID
    | Operation.other _ => none

/-- utils.Asset2Asset converts a horizon asset to a txnbuild asset; in this
model both are HAsset and the conversion is the identity. -/
def asset2Asset (a : HAsset) : HAsset := a

/-- plugins.convertOffer2MSO -/
def convertOffer2MSO (offer : HOffer) : MSO :=
  { selling := asset2Asset offer.selling, buying := asset2Asset offer.buying,
    amount := offer.amount, price := offer.price, offerID := offer.ID,
    sourceAccount := offer.seller }

/-- Modelled from the spec: utils.IsSelling is not under src (only its caller
selectBuySellList is).  Per the spec, the side of an operation is determined
by its asset direction: selling base for quote is a sell, selling quote for
base is a buy, anything else is an error. -/
def isSelling (baseAsset quoteAsset selling buying : HAsset) : Except String Bool :=
  if selling = baseAsset ∧ buying = quoteAsset then Except.ok true
  else if selling = quoteAsset ∧ buying = baseAsset then Except.ok false
  else Except.error "the ManageSellOffer does not trade the market's base and quote assets"

/-- plugins.selectBuySellList, reduced to the side it picks (the caller reads
the offer list and counter off that side). -/
def selectBuySellList (baseAsset quoteAsset : HAsset) (mso : MSO) :
    Except String OfferSide :=
  match isSelling baseAsset quoteAsset mso.selling mso.buying with
  | Except.error e =>
    Except.error ("could not check whether the ManageSellOffer was selling or buying: " ++ e)
  | Except.ok true => Except.ok OfferSide.sell
  | Except.ok false => Except.ok OfferSide.buy

/-- The result tuple of plugins.selectOpOrOffer: the op to transform (none
only in the ignored case), the original offer as an op when the offer side
won, whether the op counter (true) or the side's offer counter (false) is the
one to advance, and the ignored flag. -/
structure SelectResult where
  opToTransform : Option MSO
  originalOfferAsOp : Option MSO
  incrementOp : Bool
  isIgnoredOffer : Bool
deriving DecidableEq

/-- plugins.selectOpOrOffer.  Price strings are already rational in this
model, so the strconv.ParseFloat failure path does not arise. -/
def selectOpOrOffer (offerList : List HOffer) (offerIdx : ℕ) (mso : MSO)
    (ignoreOfferIds : List ℤ) : Except String SelectResult :=
  if h : offerIdx < offerList.length then
    let existingOffer := offerList.get ⟨offerIdx, h⟩
    if existingOffer.ID ∈ ignoreOfferIds then
      -- only compare against valid offers: skip this offer as ignored
      Except.ok { opToTransform := none, originalOfferAsOp := none,
                  incrementOp := false, isIgnoredOffer := true }
    else
      let offerPrice := (existingOffer.priceRN : ℚ) / (existingOffer.priceRD : ℚ)
      let opPrice := mso.price
      -- use the existing offer if the price is the same so we don't recreate it
      if opPrice < offerPrice then
        Except.ok { opToTransform := some mso, originalOfferAsOp := none,
                    incrementOp := true, isIgnoredOffer := false }
      else
        let offerAsOp := convertOffer2MSO existingOffer
        Except.ok { opToTransform := some offerAsOp, originalOfferAsOp := some offerAsOp,
                    incrementOp := false, isIgnoredOffer := false }
  else
    Except.ok { opToTransform := some mso, originalOfferAsOp := none,
                incrementOp := true, isIgnoredOffer := false }

/-- Read one side's offer list. -/
def offersOf (side : OfferSide) (sellingOffers buyingOffers : List HOffer) : List HOffer :=
  match side with
  | OfferSide.sell => sellingOffers
  | OfferSide.buy => buyingOffers

/-- Read one side's counter. -/
def FilterState.sideCounter (st : FilterState) (side : OfferSide) : FilterCounter :=
  match side with
  | OfferSide.sell => st.sellCounter
  | OfferSide.buy => st.buyCounter

/-- Update one side's counter. -/
def FilterState.mapSideCounter (st : FilterState) (side : OfferSide)
    (f : FilterCounter → FilterCounter) : FilterState :=
  match side with
  | OfferSide.sell => { st with sellCounter := f st.sellCounter }
  | OfferSide.buy => { st with buyCounter := f st.buyCounter }

/-- Update the op counter. -/
def FilterState.mapOpCounter (st : FilterState) (f : FilterCounter → FilterCounter) :
    FilterState :=
  { st with opCounter := f st.opCounter }

/-- One iteration of the for-loop in plugins.filterOps (lines 103-198),
processing the operation at the op cursor. -/
def filterOpsStep (baseAsset quoteAsset : HAsset)
    (sellingOffers buyingOffers : List HOffer) (fn : FilterFn)
    (ignoreOfferIds : List ℤ) (st : FilterState) (op : Operation) :
    Except String FilterState :=
  match op with
  | Operation.other t =>
    -- non-ManageSellOffer operations pass through
    Except.ok
      { st with
        filteredOps := st.filteredOps ++ [Operation.other t],
        opCounter := { st.opCounter with
                       idx := st.opCounter.idx + 1,
                       kept := st.opCounter.kept + 1 } }
  | Operation.mso o =>
    let originalMSO := o
    match selectBuySellList baseAsset quoteAsset o with
    | Except.error e =>
      Except.error ("unable to pick between whether the op was a buy or sell op: " ++ e)
    | Except.ok side =>
      let offerList := offersOf side sellingOffers buyingOffers
      match selectOpOrOffer offerList (st.sideCounter side).idx o ignoreOfferIds with
      | Except.error e => Except.error ("error while picking op or offer: " ++ e)
      | Except.ok sel =>
        -- filterCounterToIncrement.idx++
        let st1 :=
          if sel.incrementOp then
            st.mapOpCounter fun c => { c with idx := c.idx + 1 }
          else
            st.mapSideCounter side fun c => { c with idx := c.idx + 1 }
        if sel.isIgnoredOffer then
          Except.ok (st1.mapSideCounter side fun c => { c with ignored := c.ignored + 1 })
        else
          match sel.opToTransform with
          | none =>
            -- unreachable: selectOpOrOffer returns none only with isIgnoredOffer
            Except.error "opToTransform was nil"
          | some opToTransform =>
            -- delete operations (amount sentinel "0") are never dropped
            let transformed : Except String (Option MSO × Bool) :=
              if opToTransform.amount = 0 then Except.ok (some opToTransform, true)
              else fn opToTransform
            match transformed with
            | Except.error e =>
              Except.error ("could not transform offer (pointer case): " ++ e)
            | Except.ok (newOpOpt, keep) =>
              if keep then
                match newOpOpt with
                | none => Except.error "we want to keep op but newOp was nil (programmer error?)"
                | some newOp =>
                  match sel.originalOfferAsOp with
                  | some originalOffer =>
                    if originalOffer.price = newOp.price ∧ originalOffer.amount = newOp.amount then
                      -- an existing offer kept as-is: no output emitted
                      Except.ok (st1.mapSideCounter side fun c => { c with kept := c.kept + 1 })
                    else
                      -- an existing offer that was changed
                      Except.ok
                        { st1.mapSideCounter side
                            (fun c => { c with transformed := c.transformed + 1 }) with
                          filteredOps := st1.filteredOps ++ [Operation.mso newOp] }
                  | none =>
                    -- we were dealing with an operation
                    let st2 := { st1 with filteredOps := st1.filteredOps ++ [Operation.mso newOp] }
                    if originalMSO.price ≠ newOp.price ∨ originalMSO.amount ≠ newOp.amount then
                      Except.ok (st2.mapOpCounter fun c => { c with transformed := c.transformed + 1 })
                    else
                      Except.ok (st2.mapOpCounter fun c => { c with kept := c.kept + 1 })
              else
                match newOpOpt with
                | some newOp =>
                  -- a dropped op/offer with a replacement: prepend so deletes
                  -- sit at the beginning of the operation list
                  let st2 := { st1 with filteredOps := Operation.mso newOp :: st1.filteredOps }
                  match sel.originalOfferAsOp with
                  | some _ =>
                    Except.ok (st2.mapSideCounter side fun c => { c with dropped := c.dropped + 1 })
                  | none =>
                    Except.ok (st2.mapOpCounter fun c => { c with transformed := c.transformed + 1 })
                | none =>
                  Except.ok (st1.mapOpCounter fun c => { c with dropped := c.dropped + 1 })

/-- The main for-loop of plugins.filterOps, conditioned on the op cursor; the
fuel argument only serves Lean's termination checking and filterOps supplies
enough of it that it never runs out (each iteration advances the op cursor or
one of the two offer cursors). -/
def filterOpsLoop (baseAsset quoteAsset : HAsset)
    (sellingOffers buyingOffers : List HOffer) (ops : List Operation)
    (fn : FilterFn) (ignoreOfferIds : List ℤ) :
    ℕ → FilterState → Except String FilterState
  | 0, _ => Except.error "filterOps loop ran out of fuel"
  | fuel + 1, st =>
    if h : st.opCounter.idx < ops.length then
      match filterOpsStep baseAsset quoteAsset sellingOffers buyingOffers fn
          ignoreOfferIds st (ops.get ⟨st.opCounter.idx, h⟩) with
      | Except.error e => Except.error e
      | Except.ok st1 =>
        filterOpsLoop baseAsset quoteAsset sellingOffers buyingOffers ops fn
          ignoreOfferIds fuel st1
    else Except.ok st

/-- The delete operation filterOps builds from a leftover live offer
(convertOffer2MSO with the amount zeroed). -/
def offerDeleteOp (offer : HOffer) : Operation :=
  Operation.mso { convertOffer2MSO offer with amount := 0 }

/-- The two post-loop while-loops of filterOps (lines 200-214): convert every
remaining offer on one side, from the cursor on, to a prepended delete op. -/
def deleteRemainingOffers (offers : List HOffer) (idx : ℕ) (acc : List Operation) :
    List Operation :=
  if h : idx < offers.length then
    deleteRemainingOffers offers (idx + 1) (offerDeleteOp (offers.get ⟨idx, h⟩) :: acc)
  else acc
termination_by offers.length - idx

/-- The initial FilterState of a filterOps run. -/
def initialFilterState : FilterState :=
  { opCounter := { idx := 0, kept := 0, dropped := 0, transformed := 0, ignored := 0 },
    buyCounter := { idx := 0, kept := 0, dropped := 0, transformed := 0, ignored := 0 },
    sellCounter := { idx := 0, kept := 0, dropped := 0, transformed := 0, ignored := 0 },
    filteredOps := [] }

/-- plugins.filterOps (the body of every SubmitFilter.Apply). -/
def filterOps (baseAsset quoteAsset : HAsset)
    (sellingOffers buyingOffers : List HOffer) (ops : List Operation)
    (fn : FilterFn) : Except String (List Operation) :=
  let ignoreOfferIds := ignoreOfferIDs ops
  match filterOpsLoop baseAsset quoteAsset sellingOffers buyingOffers ops fn
      ignoreOfferIds (ops.length + sellingOffers.length + buyingOffers.length + 1)
      initialFilterState with
  | Except.error e => Except.error e
  | Except.ok st =>
    let afterSells := deleteRemainingOffers sellingOffers st.sellCounter.idx st.filteredOps
    let afterBuys := deleteRemainingOffers buyingOffers st.buyCounter.idx afterSells
    Except.ok afterBuys

/-- The image an input operation contributes to the appended (in-order) part
of filterOps' output: non-ManageSellOffer ops and delete-sentinel ops pass
through unchanged, and an op the filter function keeps contributes its
(possibly adjusted) result; dropped ops contribute nothing here. -/
def opKeepImage (fn : FilterFn) : Operation → Option Operation
  | Operation.other t => some (Operation.other t)
  | Operation.mso m =>
    if m.amount = 0 then some (Operation.mso m)
    else
      match fn m with
      | Except.ok (some n, true) => some (Operation.mso n)
      | _ => none

/-- All kept images of an operation list, in input order. -/
def opKeepImages (fn : FilterFn) (ops : List Operation) : List Operation :=
  ops.filterMap (opKeepImage fn)

/-! ## plugins.MakeDataKeysDag (data-dependency DAG ordering) -/

/-- api.DataKey (an iota-style integer constant). -/
abbrev DataKey : Type := ℕ

/-- The InitializedData map: each initialized datum is represented by its
DirectDependencies() list, keyed by its DataKey.  (Go map literals become
association lists; lookup takes the first matching pair.) -/
abbrev DataMap : Type := List (DataKey × List DataKey)

/-- InitializedData[key].DirectDependencies() for a key present in the map
(missing keys make dagHelper fail, see below). -/
def depsOf (dm : DataMap) (key : DataKey) : List DataKey :=
  (dm.lookup key).getD []

/-- dagHelper, the recursive worker of MakeDataKeysDag.  The shared mutable
traversed map is threaded through and returned; looking up a key missing from
InitializedData yields a nil api.Datum whose DirectDependencies() call panics
in Go, modelled as none.  The fuel argument bounds the recursion depth for
Lean's termination checking; MakeDataKeysDag supplies enough that it never
runs out. -/
def dagHelper (dm : DataMap) : ℕ → List DataKey → List DataKey →
    Option (List DataKey × List DataKey)
  | 0, _, _ => none
  | _ + 1, [], traversed => some ([], traversed)
  | fuel + 1, key :: rest, traversed =>
    if key ∈ traversed then dagHelper dm fuel rest traversed
    else
      let traversed1 := key :: traversed
      match dm.lookup key with
      | none => none -- nil interface DirectDependencies() call: runtime panic
      | some ds =>
        match dagHelper dm fuel ds traversed1 with
        | none => none
        | some (out1, traversed2) =>
          match dagHelper dm fuel rest traversed2 with
          | none => none
          | some (out2, traversed3) => some (out1 ++ key :: out2, traversed3)

/-- An upper bound on the total work of dagHelper: each key is expanded at
most once (costing 1 plus the length of its dependency list) and each input
element costs 1. -/
def dagFuel (dm : DataMap) (input : List DataKey) : ℕ :=
  input.length + (dm.map fun p => p.2.length + 1).sum + 1

/-- plugins.MakeDataKeysDag: an ordered list of data keys including the
dependencies of the keys provided, dependencies first (a depth first
search). -/
def MakeDataKeysDag (dm : DataMap) (input : List DataKey) : Option (List DataKey) :=
  (dagHelper dm (dagFuel dm input) input []).map Prod.fst

/-- The keys reachable from a starting set by following DirectDependencies
edges (the transitive dependencies, plus the starting keys themselves). -/
inductive Reach (dm : DataMap) (start : List DataKey) : DataKey → Prop where
  | base {k : DataKey} : k ∈ start → Reach dm start k
  | step {a b : DataKey} : Reach dm start a → b ∈ depsOf dm a → Reach dm start b

/-- The total cost of the not-yet-traversed entries of the data map: each
entry costs one plus the length of its dependency list (an analysis measure
for dagHelper's recursion depth, not part of the source). -/
def dagWeight (dm : DataMap) (traversed : List DataKey) : ℕ :=
  ((dm.filter fun p => decide (p.1 ∉ traversed)).map fun p => p.2.length + 1).sum

/-- Recursion-depth measure for one dagHelper call. -/
def dagMeasure (dm : DataMap) (input traversed : List DataKey) : ℕ :=
  input.length + dagWeight dm traversed

/-! ## Sample fixtures used by witnesses -/

/-- Order constraints with 7 decimal places (the stellar defaults). -/
def sampleOrderConstraints : OrderConstraints :=
  { pricePrecision := 7, volumePrecision := 7, minBaseVolume := 0 }

/-- A disabled rate offset. -/
def zeroOffset : RateOffset :=
  { percent := 0, absolute := 0, percentFirst := false, invert := false }

/-- A volume filter whose queries succeed: 8640 units of daily capacity and
nothing sold yet today. -/
def sampleVolumeFilter : VolumeFilter :=
  { baseAssetCapResult := Except.ok 8640, dailyBaseVolResult := Except.ok 0 }

/-- A TWAP provider selling around the clock in hourly buckets with smoothing
factor 1/2 and full surplus distribution, on its first tick. -/
def sampleTwapProvider : SellTwapLevelProvider :=
  { offset := zeroOffset, orderConstraints := sampleOrderConstraints,
    dowFilter := fun _ => sampleVolumeFilter, numHoursToSell := 24,
    parentBucketSizeSeconds := 3600,
    distributeSurplusOverRemainingIntervalsPercentCeiling := 1,
    exponentialSmoothingFactor := 1 / 2,
    minChildOrderSizePercentOfParent := 1 / 10,
    activeBucket := none, previousRoundID := none }

/-- The bucket sampleTwapProvider builds on its first tick at midnight:
24 hourly buckets of 360 units each, minimum order size 36. -/
def sampleTwapBucket : BucketInfo :=
  { ID := 0, startTime := 0, endTime := 3599, sizeSeconds := 3600,
    totalBuckets := 24, totalBucketsToSell := 24, dayBaseSoldStart := 0,
    dayBaseCapacity := 8640, totalBaseSurplusStart := 0, baseSurplusIncluded := 0,
    baseCapacity := 360, minOrderSizeBase := 36,
    dynamicValues :=
      { isNew := true, roundID := 0, dayBaseSold := 0, baseSold := 0, now := 0 } }

/-- A static-spread provider with one 1% level of half of 100 base units,
daily cap disabled. -/
def sampleStaticProvider : StaticSpreadLevelProvider :=
  { staticLevels := [{ SPREAD := 1 / 100, AMOUNT := 1 / 2 }], amountOfBase := 100,
    offset := zeroOffset, orderConstraints := sampleOrderConstraints,
    hasTradesDB := false, maxDailySell := { amount := 0, assetType := "" },
    minSellPrice := 0 }

/-- The same provider with a 100-unit daily base cap and a trades database. -/
def sampleCappedProvider : StaticSpreadLevelProvider :=
  { sampleStaticProvider with
    hasTradesDB := true,
    maxDailySell := { amount := 100, assetType := "base" } }

/-- A live sell-side offer (selling quote B for base A at price 2). -/
def sampleSellOffer : HOffer :=
  { ID := 7, seller := "acct",
    selling := { code := "B", issuer := "i" },
    buying := { code := "A", issuer := "i" },
    amount := 5, price := 2, priceRN := 2, priceRD := 1 }

/-- A live buy-side offer. -/
def sampleBuyOffer : HOffer :=
  { ID := 9, seller := "acct",
    selling := { code := "A", issuer := "i" },
    buying := { code := "B", issuer := "i" },
    amount := 3, price := 1, priceRN := 1, priceRD := 1 }

/-- One history entry. -/
def sampleSnapshots : Snapshots := { startData := 0, endData := 0 }

/-- A proposed sell operation whose price equals sampleSellOffer's PriceR
price (both are 2). -/
def tieMSO : MSO :=
  { selling := { code := "B", issuer := "i" },
    buying := { code := "A", issuer := "i" },
    amount := 4, price := 2, offerID := 0, sourceAccount := "acct" }

/-- The market's base asset. -/
def assetA : HAsset := { code := "A", issuer := "i" }

/-- The market's quote asset. -/
def assetB : HAsset := { code := "B", issuer := "i" }

/-- A filter policy that keeps every operation unchanged. -/
def keepAllFn : FilterFn := fun m => Except.ok (some m, true)

/-- A sell operation (selling base A for quote B) at price 1, offer id 1. -/
def cexOp1 : MSO :=
  { selling := assetA, buying := assetB, amount := 10, price := 1,
    offerID := 1, sourceAccount := "acct" }

/-- A second sell operation at price 2, offer id 2. -/
def cexOp2 : MSO :=
  { selling := assetA, buying := assetB, amount := 10, price := 2,
    offerID := 2, sourceAccount := "acct" }

/-- A filter policy that keeps every operation except offer id 2, which it
drops by replacing it with its delete form (amount 0) — the documented way a
filter "effectively drops" an operation. -/
def dropSecondFn : FilterFn := fun m =>
  if m.offerID = 2 then Except.ok (some { m with amount := 0 }, false)
  else Except.ok (some m, true)

/-! ## Helper lemmas -/

theorem numberFromFloat_idem (x : ℚ) (p : ℕ) :
    numberFromFloat (numberFromFloat x p) p = numberFromFloat x p := by
  unfold numberFromFloat
  rw [div_mul_cancel₀ _ (by positivity : ((10 : ℚ) ^ p) ≠ 0), round_intCast]

/-! ## C7: the geometric surplus distribution -/

/-- C7: firstDistributionOfBaseSurplus(totalSurplus, totalRemainingBuckets)
returns a = Sn (r - 1) / (r ^ n - 1) with Sn the surplus, r the exponential
smoothing factor and n = ceil(distribution-ceiling-fraction * remaining
buckets); in particular for Sn = 8000, r = 0.5 and n = 4 (four remaining
buckets, fully distributed) the first-bucket allocation is 12800/3, which is
within 0.01 of 4266.67. -/
theorem firstDistributionOfBaseSurplus_geometric :
    (∀ (p : SellTwapLevelProvider) (totalSurplus : ℚ) (k : ℤ),
      p.firstDistributionOfBaseSurplus totalSurplus k =
        totalSurplus * (p.exponentialSmoothingFactor - 1) /
          (p.exponentialSmoothingFactor ^
            (⌈p.distributeSurplusOverRemainingIntervalsPercentCeiling * (k : ℚ)⌉) - 1)) ∧
    (∀ (p : SellTwapLevelProvider),
      p.exponentialSmoothingFactor = 1 / 2 →
      p.distributeSurplusOverRemainingIntervalsPercentCeiling = 1 →
      p.firstDistributionOfBaseSurplus 8000 4 = 12800 / 3 ∧
        |p.firstDistributionOfBaseSurplus 8000 4 - 426667 / 100| ≤ 1 / 100) := by
  constructor
  · intro p totalSurplus k
    rfl
  · intro p h1 h2
    have hv : p.firstDistributionOfBaseSurplus 8000 4 = 12800 / 3 := by
      unfold SellTwapLevelProvider.firstDistributionOfBaseSurplus
      rw [h1, h2]
      norm_num
    refine ⟨hv, ?_⟩
    rw [hv]
    rw [abs_le]
    norm_num

/-- Witness for C7 at the sample provider. -/
theorem firstDistributionOfBaseSurplus_geometric_witness :
    sampleTwapProvider.exponentialSmoothingFactor = 1 / 2 ∧
    sampleTwapProvider.distributeSurplusOverRemainingIntervalsPercentCeiling = 1 ∧
    sampleTwapProvider.firstDistributionOfBaseSurplus 8000 4 = 12800 / 3 :=
  ⟨rfl, rfl, (firstDistributionOfBaseSurplus_geometric.2 sampleTwapProvider rfl rfl).1⟩

/-! ## C8 and C9: the static-spread level provider -/

/-- With no cap active and no minimum sell price, the level loop maps every
configured static level to its spread-adjusted, quantized level. -/
theorem staticLevelsLoop_noCap_map (p : StaticSpreadLevelProvider)
    (center mb : ℚ) (hmin : p.minSellPrice = 0) :
    ∀ (levels : List StaticLevel) (soFar : ℚ),
      (∀ sl ∈ levels,
        0 < numberFromFloat (sl.AMOUNT * p.amountOfBase) p.orderConstraints.volumePrecision) →
      staticLevelsLoop p CapFn.noCap center mb levels soFar =
        levels.map fun sl =>
          { price := numberFromFloat (center * (1 + sl.SPREAD)) p.orderConstraints.pricePrecision,
            amount := numberFromFloat (sl.AMOUNT * p.amountOfBase)
              p.orderConstraints.volumePrecision } := by
  intro levels
  induction levels with
  | nil => intro soFar _; rfl
  | cons sl rest ih =>
    intro soFar hpos
    have hsl : 0 < numberFromFloat (sl.AMOUNT * p.amountOfBase)
        p.orderConstraints.volumePrecision :=
      hpos sl (List.mem_cons_self sl rest)
    have hrest : ∀ s ∈ rest,
        0 < numberFromFloat (s.AMOUNT * p.amountOfBase) p.orderConstraints.volumePrecision :=
      fun s hs => hpos s (List.mem_cons_of_mem sl hs)
    simp only [staticLevelsLoop, applyCapFn]
    rw [if_neg (by simp [hmin]), if_neg (not_le.mpr hsl), numberFromFloat_idem,
      ih _ hrest, List.map_cons,
      show center + center * sl.SPREAD = center * (1 + sl.SPREAD) from by ring]

/-- C8: for every configured (SPREAD, AMOUNT) static level,
staticSpreadLevelProvider.GetLevels emits the level with price =
adjustedCenterPrice * (1 + SPREAD) quantized to the price precision (the
spread is always added) and amount = AMOUNT * amountOfBase quantized to the
volume precision before capping, where the adjusted center price applies the
optional rate offset: (center * (1 + percent)) + absolute when percentFirst,
(center + absolute) * (1 + percent) otherwise, and with invert the offset is
applied to the reciprocal price and inverted back.  (Stated with the daily
cap disabled and no minimum sell price, so every configured level is
emitted.) -/
theorem staticSpread_getLevels_formula (p : StaticSpreadLevelProvider)
    (centerPrice0 : ℚ) (msr : Except String MaxSold) (maxAssetBase maxAssetQuote : ℚ)
    (hdb : p.hasTradesDB = false)
    (hmin : p.minSellPrice = 0)
    (hpos : ∀ sl ∈ p.staticLevels,
      0 < numberFromFloat (sl.AMOUNT * p.amountOfBase) p.orderConstraints.volumePrecision) :
    ∃ adjusted : ℚ,
      adjusted =
        (if p.offset.percent ≠ 0 ∨ p.offset.absolute ≠ 0 then
          (if p.offset.invert then
            1 / (if p.offset.percentFirst then
                   (1 / centerPrice0) * (1 + p.offset.percent) + p.offset.absolute
                 else (1 / centerPrice0 + p.offset.absolute) * (1 + p.offset.percent))
           else
            (if p.offset.percentFirst then
               centerPrice0 * (1 + p.offset.percent) + p.offset.absolute
             else (centerPrice0 + p.offset.absolute) * (1 + p.offset.percent)))
         else centerPrice0) ∧
      p.getLevels (Except.ok centerPrice0) msr maxAssetBase maxAssetQuote =
        Except.ok (p.staticLevels.map fun sl =>
          { price := numberFromFloat (adjusted * (1 + sl.SPREAD)) p.orderConstraints.pricePrecision,
            amount := numberFromFloat (sl.AMOUNT * p.amountOfBase)
              p.orderConstraints.volumePrecision }) := by
  refine ⟨_, rfl, ?_⟩
  have hcap : staticCapPhase p msr = Except.ok (some CapFn.noCap) := by
    unfold staticCapPhase
    rw [if_pos (Or.inl hdb)]
  have happly : (RateOffset.apply p.offset centerPrice0).1 =
      (if p.offset.percent ≠ 0 ∨ p.offset.absolute ≠ 0 then
        (if p.offset.invert then
          1 / (if p.offset.percentFirst then
                 (1 / centerPrice0) * (1 + p.offset.percent) + p.offset.absolute
               else (1 / centerPrice0 + p.offset.absolute) * (1 + p.offset.percent))
         else
          (if p.offset.percentFirst then
             centerPrice0 * (1 + p.offset.percent) + p.offset.absolute
           else (centerPrice0 + p.offset.absolute) * (1 + p.offset.percent)))
       else centerPrice0) := by
    unfold RateOffset.apply
    by_cases h : p.offset.percent ≠ 0 ∨ p.offset.absolute ≠ 0
    · rw [if_pos h, if_pos h]
      cases hI : p.offset.invert <;> cases hPF : p.offset.percentFirst <;> simp
    · rw [if_neg h, if_neg h]
  simp only [StaticSpreadLevelProvider.getLevels, hcap]
  rw [happly, staticLevelsLoop_noCap_map p _ maxAssetBase hmin p.staticLevels 0 hpos]

/-- Witness for C8 at the sample provider, center price 2. -/
theorem staticSpread_getLevels_formula_witness :
    ∃ adjusted : ℚ,
      adjusted =
        (if sampleStaticProvider.offset.percent ≠ 0 ∨ sampleStaticProvider.offset.absolute ≠ 0 then
          (if sampleStaticProvider.offset.invert then
            1 / (if sampleStaticProvider.offset.percentFirst then
                   (1 / 2) * (1 + sampleStaticProvider.offset.percent) +
                     sampleStaticProvider.offset.absolute
                 else (1 / 2 + sampleStaticProvider.offset.absolute) *
                     (1 + sampleStaticProvider.offset.percent))
           else
            (if sampleStaticProvider.offset.percentFirst then
               2 * (1 + sampleStaticProvider.offset.percent) +
                 sampleStaticProvider.offset.absolute
             else (2 + sampleStaticProvider.offset.absolute) *
                 (1 + sampleStaticProvider.offset.percent)))
         else 2) ∧
      sampleStaticProvider.getLevels (Except.ok 2) (Except.error "db off") 1000 1000 =
        Except.ok (sampleStaticProvider.staticLevels.map fun sl =>
          { price := numberFromFloat (adjusted * (1 + sl.SPREAD))
              sampleStaticProvider.orderConstraints.pricePrecision,
            amount := numberFromFloat (sl.AMOUNT * sampleStaticProvider.amountOfBase)
              sampleStaticProvider.orderConstraints.volumePrecision }) :=
  staticSpread_getLevels_formula sampleStaticProvider 2 (Except.error "db off") 1000 1000
    rfl rfl (by
      intro sl hsl
      simp only [sampleStaticProvider, List.mem_singleton] at hsl
      subst hsl
      norm_num [numberFromFloat, sampleStaticProvider, sampleOrderConstraints])

/-- C9: once the externally tracked amount sold today reaches the daily cap
within the 0.1% tolerance, staticSpreadLevelProvider.GetLevels returns the
empty ladder with a nil error (for both the base and the quote flavour of the
cap); and within one call the level loop stops at the first level whose
cap-adjusted amount is non-positive, emitting no later level. -/
theorem staticSpread_dailyCap_empty_and_stop :
    (∀ (p : StaticSpreadLevelProvider) (c : ℚ) (mSold : MaxSold) (mb mq : ℚ),
      p.hasTradesDB = true →
      p.maxDailySell.assetType = "base" →
      mSold.sumBaseSold ≥ p.maxDailySell.amount * (1 - maxSellLimitsTolerancePct) →
      p.getLevels (Except.ok c) (Except.ok mSold) mb mq = Except.ok []) ∧
    (∀ (p : StaticSpreadLevelProvider) (c : ℚ) (mSold : MaxSold) (mb mq : ℚ),
      p.hasTradesDB = true →
      p.maxDailySell.assetType = "quote" →
      mSold.sumQuoteCost ≥ p.maxDailySell.amount * (1 - maxSellLimitsTolerancePct) →
      p.getLevels (Except.ok c) (Except.ok mSold) mb mq = Except.ok []) ∧
    (∀ (p : StaticSpreadLevelProvider) (capFn : CapFn) (center mb soFar : ℚ)
        (sl : StaticLevel) (rest : List StaticLevel),
      ¬(p.minSellPrice > 0 ∧
          numberFromFloat (center + center * sl.SPREAD) p.orderConstraints.pricePrecision
            < p.minSellPrice) →
      applyCapFn capFn mb soFar
          (numberFromFloat (sl.AMOUNT * p.amountOfBase) p.orderConstraints.volumePrecision)
          (numberFromFloat (center + center * sl.SPREAD) p.orderConstraints.pricePrecision)
        ≤ 0 →
      staticLevelsLoop p capFn center mb (sl :: rest) soFar = []) := by
  refine ⟨?_, ?_, ?_⟩
  · intro p c mSold mb mq hdb hty hsold
    have h1 : ¬(p.hasTradesDB = false ∨ p.maxDailySell.assetType = "") := by
      rw [hdb, hty]
      rintro (h | h)
      · exact absurd h (by simp)
      · exact absurd h (by decide)
    have hcap : staticCapPhase p (Except.ok mSold) = Except.ok none := by
      simp only [staticCapPhase]
      rw [if_neg h1, if_pos ⟨hty, hsold⟩]
    simp only [StaticSpreadLevelProvider.getLevels, hcap]
  · intro p c mSold mb mq hdb hty hsold
    have h1 : ¬(p.hasTradesDB = false ∨ p.maxDailySell.assetType = "") := by
      rw [hdb, hty]
      rintro (h | h)
      · exact absurd h (by simp)
      · exact absurd h (by decide)
    have h2 : ¬(p.maxDailySell.assetType = "base" ∧
        mSold.sumBaseSold ≥ p.maxDailySell.amount * (1 - maxSellLimitsTolerancePct)) := by
      rintro ⟨h, _⟩
      rw [hty] at h
      exact absurd h (by decide)
    have hcap : staticCapPhase p (Except.ok mSold) = Except.ok none := by
      simp only [staticCapPhase]
      rw [if_neg h1, if_neg h2, if_pos ⟨hty, hsold⟩]
    simp only [StaticSpreadLevelProvider.getLevels, hcap]
  · intro p capFn center mb soFar sl rest hskip hcapped
    simp only [staticLevelsLoop]
    rw [if_neg hskip, if_pos hcapped]

/-- Witness for C9: a base cap of 100 with 99.95 already sold (within the
0.1% tolerance) yields the empty ladder, and a base-capped loop whose first
level exceeds the remaining allowance emits nothing. -/
theorem staticSpread_dailyCap_empty_and_stop_witness :
    sampleCappedProvider.getLevels (Except.ok 2)
        (Except.ok { sumBaseSold := 9995 / 100, sumQuoteCost := 0 }) 1000 1000 =
      Except.ok [] ∧
    staticLevelsLoop sampleCappedProvider (CapFn.baseCap 0) 2 1000
        [{ SPREAD := 1 / 100, AMOUNT := 1 / 2 }] 0 = [] :=
  ⟨staticSpread_dailyCap_empty_and_stop.1 sampleCappedProvider 2
      { sumBaseSold := 9995 / 100, sumQuoteCost := 0 } 1000 1000 rfl rfl
      (by norm_num [sampleCappedProvider, sampleStaticProvider, maxSellLimitsTolerancePct]),
   staticSpread_dailyCap_empty_and_stop.2.2 sampleCappedProvider (CapFn.baseCap 0) 2 1000 0
      { SPREAD := 1 / 100, AMOUNT := 1 / 2 } []
      (by norm_num [sampleCappedProvider, sampleStaticProvider])
      (by norm_num [applyCapFn, capSellAmountUsingBaseConstraint, numberFromFloat,
        sampleCappedProvider, sampleStaticProvider, sampleOrderConstraints])⟩

/-! ## C4 and C5: the trader control loop -/

/-- Trader.deleteAllOffers cancels exactly the tracked offers and clears both
caches. -/
theorem deleteAllOffers_eq (s : TraderState) :
    Trader.deleteAllOffers s =
      ({ s with sellingAOffers := [], buyingAOffers := [] },
        cancelTrace s.sellingAOffers s.buyingAOffers) := rfl

/-- C4 (refuting the no-panic claim on the code as written): on the first
tick after Trader.Start, the history is empty; Trader.update copies it with
append([]api.Snapshots..., history...) — which, despite its comment, adds no
new element — and then indexes History[0], an index-out-of-range panic.
Evaluating the embedded update at that failing input yields the panic marker
none. -/
theorem trader_update_first_tick_panics :
    Trader.update
      { snapshotStartResult := Except.ok (), preUpdateResult := Except.ok (),
        prunedOps := [], prunedBuying := [], prunedSelling := [],
        submitPruneResult := Except.ok (), updateWithOpsResult := Except.ok [],
        submitUpdateResult := Except.ok (), snapshotEndResult := Except.ok (),
        postUpdateResult := Except.ok (), maxHistory := 8 }
      { sellingAOffers := [], buyingAOffers := [], history := [] } = none := rfl

/-- C5: an error returned at any stage of Trader.update (initial snapshot
load, PreUpdate, submission of prune ops, UpdateWithOps, submission of update
ops, final snapshot load, PostUpdate) makes the tick cancel exactly the
offers the bot itself tracks at that moment — its cached SellingAOffers and
BuyingAOffers, replaced by PruneExistingOffers from the prune stage onwards —
and return without executing any later stage: the returned call trace stops
at the failing stage followed only by the cancel submission. -/
theorem trader_update_error_recovery (env : TraderTickEnv) (st : TraderState)
    (h0 : Snapshots) (hrest : List Snapshots) (hh : st.history = h0 :: hrest) :
    (∀ e, env.snapshotStartResult = Except.error e →
      Trader.update env st =
        some ({ sellingAOffers := [], buyingAOffers := [], history := st.history },
          [TraderAction.snapshotStart] ++
            cancelTrace st.sellingAOffers st.buyingAOffers)) ∧
    (∀ e, env.snapshotStartResult = Except.ok () → env.preUpdateResult = Except.error e →
      Trader.update env st =
        some ({ sellingAOffers := [], buyingAOffers := [], history := st.history },
          [TraderAction.snapshotStart, TraderAction.stratPreUpdate] ++
            cancelTrace st.sellingAOffers st.buyingAOffers)) ∧
    (∀ e, env.snapshotStartResult = Except.ok () → env.preUpdateResult = Except.ok () →
      0 < env.prunedOps.length → env.submitPruneResult = Except.error e →
      Trader.update env st =
        some ({ sellingAOffers := [], buyingAOffers := [], history := st.history },
          [TraderAction.snapshotStart, TraderAction.stratPreUpdate, TraderAction.stratPrune,
            TraderAction.submitOps env.prunedOps] ++
            cancelTrace env.prunedSelling env.prunedBuying)) ∧
    (∀ e, env.snapshotStartResult = Except.ok () → env.preUpdateResult = Except.ok () →
      (0 < env.prunedOps.length → env.submitPruneResult = Except.ok ()) →
      env.updateWithOpsResult = Except.error e →
      Trader.update env st =
        some ({ sellingAOffers := [], buyingAOffers := [], history := st.history },
          [TraderAction.snapshotStart, TraderAction.stratPreUpdate, TraderAction.stratPrune] ++
            (if 0 < env.prunedOps.length then [TraderAction.submitOps env.prunedOps] else []) ++
            [TraderAction.resetCachedXlmExposure, TraderAction.stratUpdateWithOps] ++
            cancelTrace env.prunedSelling env.prunedBuying)) ∧
    (∀ e ops, env.snapshotStartResult = Except.ok () → env.preUpdateResult = Except.ok () →
      (0 < env.prunedOps.length → env.submitPruneResult = Except.ok ()) →
      env.updateWithOpsResult = Except.ok ops → 0 < ops.length →
      env.submitUpdateResult = Except.error e →
      Trader.update env st =
        some ({ sellingAOffers := [], buyingAOffers := [], history := st.history },
          [TraderAction.snapshotStart, TraderAction.stratPreUpdate, TraderAction.stratPrune] ++
            (if 0 < env.prunedOps.length then [TraderAction.submitOps env.prunedOps] else []) ++
            [TraderAction.resetCachedXlmExposure, TraderAction.stratUpdateWithOps,
              TraderAction.submitOps ops] ++
            cancelTrace env.prunedSelling env.prunedBuying)) ∧
    (∀ e ops, env.snapshotStartResult = Except.ok () → env.preUpdateResult = Except.ok () →
      (0 < env.prunedOps.length → env.submitPruneResult = Except.ok ()) →
      env.updateWithOpsResult = Except.ok ops →
      (0 < ops.length → env.submitUpdateResult = Except.ok ()) →
      env.snapshotEndResult = Except.error e →
      Trader.update env st =
        some ({ sellingAOffers := [], buyingAOffers := [], history := st.history },
          [TraderAction.snapshotStart, TraderAction.stratPreUpdate, TraderAction.stratPrune] ++
            (if 0 < env.prunedOps.length then [TraderAction.submitOps env.prunedOps] else []) ++
            [TraderAction.resetCachedXlmExposure, TraderAction.stratUpdateWithOps] ++
            (if 0 < ops.length then [TraderAction.submitOps ops] else []) ++
            [TraderAction.snapshotEnd] ++
            cancelTrace env.prunedSelling env.prunedBuying)) ∧
    (∀ e ops, env.snapshotStartResult = Except.ok () → env.preUpdateResult = Except.ok () →
      (0 < env.prunedOps.length → env.submitPruneResult = Except.ok ()) →
      env.updateWithOpsResult = Except.ok ops →
      (0 < ops.length → env.submitUpdateResult = Except.ok ()) →
      env.snapshotEndResult = Except.ok () →
      env.postUpdateResult = Except.error e →
      Trader.update env st =
        some ({ sellingAOffers := [], buyingAOffers := [], history := st.history },
          [TraderAction.snapshotStart, TraderAction.stratPreUpdate, TraderAction.stratPrune] ++
            (if 0 < env.prunedOps.length then [TraderAction.submitOps env.prunedOps] else []) ++
            [TraderAction.resetCachedXlmExposure, TraderAction.stratUpdateWithOps] ++
            (if 0 < ops.length then [TraderAction.submitOps ops] else []) ++
            [TraderAction.snapshotEnd, TraderAction.stratPostUpdate] ++
            cancelTrace env.prunedSelling env.prunedBuying)) := by
  refine ⟨?_, ?_, ?_, ?_, ?_, ?_, ?_⟩
  · intro e h1
    simp [Trader.update, hh, h1, deleteAllOffers_eq]
  · intro e h1 h2
    simp [Trader.update, hh, h1, h2, deleteAllOffers_eq]
  · intro e h1 h2 hp h3
    simp [Trader.update, hh, h1, h2, hp, h3, deleteAllOffers_eq]
  · intro e h1 h2 hp h3
    by_cases hpp : 0 < env.prunedOps.length
    · simp [Trader.update, hh, h1, h2, hpp, hp hpp, h3, deleteAllOffers_eq]
    · simp [Trader.update, hh, h1, h2, hpp, h3, deleteAllOffers_eq]
  · intro e ops h1 h2 hp h3 hops h4
    by_cases hpp : 0 < env.prunedOps.length
    · simp [Trader.update, hh, h1, h2, hpp, hp hpp, h3, hops, h4, deleteAllOffers_eq]
    · simp [Trader.update, hh, h1, h2, hpp, h3, hops, h4, deleteAllOffers_eq]
  · intro e ops h1 h2 hp h3 hso h4
    by_cases hpp : 0 < env.prunedOps.length <;>
      by_cases hoo : 0 < ops.length <;>
      simp [Trader.update, hh, h1, h2, hpp, hp, h3, hoo, hso, h4, deleteAllOffers_eq]
  · intro e ops h1 h2 hp h3 hso h4 h5
    by_cases hpp : 0 < env.prunedOps.length <;>
      by_cases hoo : 0 < ops.length <;>
      simp [Trader.update, hh, h1, h2, hpp, hp, h3, hoo, hso, h4, h5, deleteAllOffers_eq]

/-- Witness for C5: a PreUpdate failure with one tracked offer on each side
cancels exactly those two offers. -/
theorem trader_update_error_recovery_witness :
    Trader.update
      { snapshotStartResult := Except.ok (), preUpdateResult := Except.error "boom",
        prunedOps := [], prunedBuying := [], prunedSelling := [],
        submitPruneResult := Except.ok (), updateWithOpsResult := Except.ok [],
        submitUpdateResult := Except.ok (), snapshotEndResult := Except.ok (),
        postUpdateResult := Except.ok (), maxHistory := 0 }
      { sellingAOffers := [sampleSellOffer], buyingAOffers := [sampleBuyOffer],
        history := [sampleSnapshots] } =
      some ({ sellingAOffers := [], buyingAOffers := [], history := [sampleSnapshots] },
        [TraderAction.snapshotStart, TraderAction.stratPreUpdate] ++
          cancelTrace [sampleSellOffer] [sampleBuyOffer]) :=
  (trader_update_error_recovery _ _ sampleSnapshots [] rfl).2.1 "boom" rfl rfl

/-! ## C3: the TWAP ladder -/

/-- C3: every successful sellTwapLevelProvider.GetLevels call returns exactly
one Level, priced at the (quantized) offset-adjusted feed price; its amount
is the round's cappedAmount (quantized), which equals the bucket's entire
remaining capacity when that remainder is at or below the bucket's
minOrderSizeBase, and otherwise lies in [minOrderSizeBase, remaining
capacity], determined by the supplied random draw in [0, 1) — so it is
deterministic given the seeded generator's value. -/
theorem sellTwap_getLevels_one_level (p : SellTwapLevelProvider) (now : ℕ)
    (feedPriceResult : Except String ℚ) (rand01 : ℚ) (mb mq : ℚ)
    (levels : List Level) (bucket : BucketInfo) (rID : ℕ)
    (hrun : p.getLevels now feedPriceResult rand01 mb mq =
      Except.ok (levels, bucket, rID))
    (hr0 : 0 ≤ rand01) (hr1 : rand01 < 1) :
    ∃ feedPrice amt,
      feedPriceResult = Except.ok feedPrice ∧
      levels = [{ price := numberFromFloat (RateOffset.apply p.offset feedPrice).1
                    p.orderConstraints.pricePrecision,
                  amount := numberFromFloat amt p.orderConstraints.volumePrecision }] ∧
      (bucket.baseRemaining ≤ bucket.minOrderSizeBase → amt = bucket.baseRemaining) ∧
      (bucket.minOrderSizeBase < bucket.baseRemaining →
        bucket.minOrderSizeBase ≤ amt ∧ amt ≤ bucket.baseRemaining) := by
  simp only [SellTwapLevelProvider.getLevels] at hrun
  cases hmb : p.makeBucketInfo now (p.dowFilter (weekdayOfUnix now)) p.makeRoundID with
  | error e => rw [hmb] at hrun; exact absurd hrun (by simp)
  | ok b =>
    rw [hmb] at hrun
    simp only [] at hrun
    cases hmr : p.makeRoundInfo p.makeRoundID now b feedPriceResult rand01 with
    | error e => rw [hmr] at hrun; exact absurd hrun (by simp)
    | ok round =>
      rw [hmr] at hrun
      simp only [Except.ok.injEq, Prod.mk.injEq] at hrun
      obtain ⟨hlv, hbk, -⟩ := hrun
      rw [hbk] at hmr
      simp only [SellTwapLevelProvider.makeRoundInfo] at hmr
      cases hfp : feedPriceResult with
      | error e => rw [hfp] at hmr; exact absurd hmr (by simp)
      | ok feedPrice =>
        rw [hfp] at hmr
        simp only [Except.ok.injEq] at hmr
        have hprice : round.price = (RateOffset.apply p.offset feedPrice).1 := by
          rw [← hmr]
        have hamt : round.sizeBaseCapped =
            (if bucket.baseRemaining ≤ bucket.minOrderSizeBase then bucket.baseRemaining
             else bucket.minOrderSizeBase +
               rand01 * (bucket.baseRemaining - bucket.minOrderSizeBase)) := by
          rw [← hmr]
        refine ⟨feedPrice, round.sizeBaseCapped, rfl, ?_, ?_, ?_⟩
        · rw [← hlv, hprice]
        · intro hle
          rw [hamt, if_pos hle]
        · intro hlt
          rw [hamt, if_neg (not_le.mpr hlt)]
          have hpos : (0 : ℚ) < bucket.baseRemaining - bucket.minOrderSizeBase :=
            sub_pos.mpr hlt
          have h1 : 0 ≤ rand01 * (bucket.baseRemaining - bucket.minOrderSizeBase) :=
            mul_nonneg hr0 (le_of_lt hpos)
          have h2 : rand01 * (bucket.baseRemaining - bucket.minOrderSizeBase) ≤
              bucket.baseRemaining - bucket.minOrderSizeBase := by
            nlinarith
          exact ⟨by linarith, by linarith⟩

/-- Witness for C3: the sample provider's first tick at midnight with feed
price 5 and random draw 1/2 emits one level of 198 base units at price 5
(bucket capacity 360, minimum order size 36, 36 + 324/2 = 198). -/
theorem sellTwap_getLevels_one_level_witness :
    ∃ feedPrice amt,
      (Except.ok 5 : Except String ℚ) = Except.ok feedPrice ∧
      [({ price := 5, amount := 198 } : Level)] =
        [{ price := numberFromFloat (RateOffset.apply sampleTwapProvider.offset feedPrice).1
             sampleTwapProvider.orderConstraints.pricePrecision,
           amount := numberFromFloat amt sampleTwapProvider.orderConstraints.volumePrecision }] ∧
      (sampleTwapBucket.baseRemaining ≤ sampleTwapBucket.minOrderSizeBase →
        amt = sampleTwapBucket.baseRemaining) ∧
      (sampleTwapBucket.minOrderSizeBase < sampleTwapBucket.baseRemaining →
        sampleTwapBucket.minOrderSizeBase ≤ amt ∧ amt ≤ sampleTwapBucket.baseRemaining) := by
  refine sellTwap_getLevels_one_level sampleTwapProvider 0 (Except.ok 5) (1 / 2) 100 100
    [{ price := 5, amount := 198 }] sampleTwapBucket 0 ?_ (by norm_num) (by norm_num)
  norm_num [SellTwapLevelProvider.getLevels, SellTwapLevelProvider.makeBucketInfo,
    SellTwapLevelProvider.makeRoundID, SellTwapLevelProvider.makeFirstBucketFrame,
    SellTwapLevelProvider.makeRoundInfo, sampleTwapProvider, sampleTwapBucket,
    sampleVolumeFilter, sampleOrderConstraints, zeroOffset, RateOffset.apply,
    BucketInfo.baseRemaining, BucketInfo.uuid, numberFromFloat, floorDateUnix,
    ceilDateUnix, weekdayOfUnix, secondsInDay, secondsInHour, Int.ceil_eq_iff]

/-! ## C6: which of op/offer the merge hands to the transform -/

/-- C6 (counterexample to the claim as stated): with the live offer's price
EQUAL to the operation's price the offer is not strictly better, yet
selectOpOrOffer hands the existing offer to the transform function (its
comment: reuse the existing offer when the price is the same so the offer is
not recreated) — the claim's "exactly when the live offer's price is better
(lower)" fails at equality. -/
theorem selectOpOrOffer_tie_counterexample :
    selectOpOrOffer [sampleSellOffer] 0 tieMSO [] =
      Except.ok { opToTransform := some (convertOffer2MSO sampleSellOffer),
                  originalOfferAsOp := some (convertOffer2MSO sampleSellOffer),
                  incrementOp := false, isIgnoredOffer := false } ∧
    ¬(((sampleSellOffer.priceRN : ℚ) / (sampleSellOffer.priceRD : ℚ)) < tieMSO.price) := by
  constructor
  · norm_num [selectOpOrOffer, sampleSellOffer, tieMSO]
  · norm_num [sampleSellOffer, tieMSO]

/-- C6 (amended): when the next live offer on the operation's side exists and
is not ignored, the offer is handed to the transform function first exactly
when its price is lower than or EQUAL to the operation's price (ties go to
the existing offer so it is not recreated unnecessarily); only when the
operation's price is strictly lower is the operation itself transformed. -/
theorem selectOpOrOffer_offer_first_iff (offerList : List HOffer) (offerIdx : ℕ)
    (m : MSO) (ignoreIds : List ℤ) (h : offerIdx < offerList.length)
    (hig : (offerList.get ⟨offerIdx, h⟩).ID ∉ ignoreIds) :
    (((offerList.get ⟨offerIdx, h⟩).priceRN : ℚ) / ((offerList.get ⟨offerIdx, h⟩).priceRD : ℚ)
        ≤ m.price →
      selectOpOrOffer offerList offerIdx m ignoreIds =
        Except.ok { opToTransform := some (convertOffer2MSO (offerList.get ⟨offerIdx, h⟩)),
                    originalOfferAsOp := some (convertOffer2MSO (offerList.get ⟨offerIdx, h⟩)),
                    incrementOp := false, isIgnoredOffer := false }) ∧
    (m.price <
        ((offerList.get ⟨offerIdx, h⟩).priceRN : ℚ) / ((offerList.get ⟨offerIdx, h⟩).priceRD : ℚ) →
      selectOpOrOffer offerList offerIdx m ignoreIds =
        Except.ok { opToTransform := some m, originalOfferAsOp := none,
                    incrementOp := true, isIgnoredOffer := false }) := by
  constructor
  · intro hle
    unfold selectOpOrOffer
    rw [dif_pos h, if_neg hig, if_neg (not_lt.mpr hle)]
  · intro hlt
    unfold selectOpOrOffer
    rw [dif_pos h, if_neg hig, if_pos hlt]

/-- Witness for C6 (amended) at the tie input: the offer is handed first. -/
theorem selectOpOrOffer_offer_first_iff_witness :
    selectOpOrOffer [sampleSellOffer] 0 tieMSO [] =
      Except.ok { opToTransform := some (convertOffer2MSO
                    ([sampleSellOffer].get ⟨0, by norm_num⟩)),
                  originalOfferAsOp := some (convertOffer2MSO
                    ([sampleSellOffer].get ⟨0, by norm_num⟩)),
                  incrementOp := false, isIgnoredOffer := false } :=
  (selectOpOrOffer_offer_first_iff [sampleSellOffer] 0 tieMSO [] (by norm_num)
      (by norm_num)).1
    (by norm_num [sampleSellOffer, tieMSO])

/-! ## C2: unreached live offers become prepended deletes -/

/-- The post-loop while-loops prepend, in reverse order, one delete per
remaining offer. -/
theorem deleteRemainingOffers_eq (offers : List HOffer) :
    ∀ (idx : ℕ) (acc : List Operation),
      deleteRemainingOffers offers idx acc =
        ((offers.drop idx).map offerDeleteOp).reverse ++ acc := by
  have key : ∀ (n idx : ℕ) (acc : List Operation), offers.length - idx ≤ n →
      deleteRemainingOffers offers idx acc =
        ((offers.drop idx).map offerDeleteOp).reverse ++ acc := by
    intro n
    induction n with
    | zero =>
      intro idx acc hle
      have hge : offers.length ≤ idx := by omega
      rw [deleteRemainingOffers, dif_neg (not_lt.mpr hge),
        List.drop_eq_nil_of_le hge]
      simp
    | succ n ih =>
      intro idx acc hle
      by_cases h : idx < offers.length
      · rw [deleteRemainingOffers, dif_pos h, ih (idx + 1) _ (by omega),
          List.drop_eq_getElem_cons h, List.map_cons, List.reverse_cons,
          List.append_assoc]
        rfl
      · rw [deleteRemainingOffers, dif_neg h,
          List.drop_eq_nil_of_le (le_of_not_lt h)]
        simp
  intro idx acc
  exact key (offers.length - idx) idx acc le_rfl

/-- C2: after filterOps has consumed the whole operation stream, every
remaining live offer the merge never reached (on either side, from the loop's
final offer cursor on — in particular live orders never referenced and never
consumed during the merge) appears in the returned list as a Delete operation
(amount 0), prepended ahead of everything the loop emitted: the output is
exactly the reversed buy-side deletes, then the reversed sell-side deletes,
then the loop's operations. -/
theorem filterOps_deletes_unreached (baseAsset quoteAsset : HAsset)
    (sellingOffers buyingOffers : List HOffer) (ops : List Operation)
    (fn : FilterFn) (out : List Operation)
    (hrun : filterOps baseAsset quoteAsset sellingOffers buyingOffers ops fn =
      Except.ok out) :
    ∃ st : FilterState,
      filterOpsLoop baseAsset quoteAsset sellingOffers buyingOffers ops fn
        (ignoreOfferIDs ops)
        (ops.length + sellingOffers.length + buyingOffers.length + 1)
        initialFilterState = Except.ok st ∧
      out = ((buyingOffers.drop st.buyCounter.idx).map offerDeleteOp).reverse ++
            (((sellingOffers.drop st.sellCounter.idx).map offerDeleteOp).reverse ++
              st.filteredOps) ∧
      (∀ o ∈ sellingOffers.drop st.sellCounter.idx, offerDeleteOp o ∈ out) ∧
      (∀ o ∈ buyingOffers.drop st.buyCounter.idx, offerDeleteOp o ∈ out) ∧
      (∀ o : HOffer, ∃ m : MSO, offerDeleteOp o = Operation.mso m ∧ m.amount = 0) := by
  simp only [filterOps] at hrun
  cases hloop : filterOpsLoop baseAsset quoteAsset sellingOffers buyingOffers ops fn
      (ignoreOfferIDs ops)
      (ops.length + sellingOffers.length + buyingOffers.length + 1)
      initialFilterState with
  | error e => rw [hloop] at hrun; exact absurd hrun (by simp)
  | ok st =>
    rw [hloop] at hrun
    simp only [Except.ok.injEq] at hrun
    have hout : out =
        ((buyingOffers.drop st.buyCounter.idx).map offerDeleteOp).reverse ++
          (((sellingOffers.drop st.sellCounter.idx).map offerDeleteOp).reverse ++
            st.filteredOps) := by
      rw [← hrun, deleteRemainingOffers_eq, deleteRemainingOffers_eq]
    refine ⟨st, rfl, hout, ?_, ?_, ?_⟩
    · intro o ho
      rw [hout]
      refine List.mem_append_right _ (List.mem_append_left _ ?_)
      rw [List.mem_reverse]
      exact List.mem_map_of_mem offerDeleteOp ho
    · intro o ho
      rw [hout]
      refine List.mem_append_left _ ?_
      rw [List.mem_reverse]
      exact List.mem_map_of_mem offerDeleteOp ho
    · intro o
      exact ⟨{ convertOffer2MSO o with amount := 0 }, rfl, rfl⟩

/-- Witness for C2: one live sell offer, no operations — the offer comes back
as a single prepended delete. -/
theorem filterOps_deletes_unreached_witness :
    ∃ st : FilterState,
      filterOpsLoop assetA assetB [sampleSellOffer] [] [] keepAllFn
        (ignoreOfferIDs [])
        (([] : List Operation).length + [sampleSellOffer].length +
          ([] : List HOffer).length + 1)
        initialFilterState = Except.ok st ∧
      [offerDeleteOp sampleSellOffer] =
        ((([] : List HOffer).drop st.buyCounter.idx).map offerDeleteOp).reverse ++
          ((([sampleSellOffer].drop st.sellCounter.idx).map offerDeleteOp).reverse ++
            st.filteredOps) ∧
      (∀ o ∈ [sampleSellOffer].drop st.sellCounter.idx, offerDeleteOp o ∈
        [offerDeleteOp sampleSellOffer]) ∧
      (∀ o ∈ ([] : List HOffer).drop st.buyCounter.idx, offerDeleteOp o ∈
        [offerDeleteOp sampleSellOffer]) ∧
      (∀ o : HOffer, ∃ m : MSO, offerDeleteOp o = Operation.mso m ∧ m.amount = 0) :=
  filterOps_deletes_unreached assetA assetB [sampleSellOffer] [] [] keepAllFn
    [offerDeleteOp sampleSellOffer]
    (by norm_num [filterOps, filterOpsLoop, initialFilterState, deleteRemainingOffers_eq,
      ignoreOfferIDs])

/-! ## C1: kept operations preserve their input order -/

@[simp]
theorem mapSideCounter_filteredOps (st : FilterState) (side : OfferSide)
    (f : FilterCounter → FilterCounter) :
    (st.mapSideCounter side f).filteredOps = st.filteredOps := by
  cases side <;> rfl

@[simp]
theorem mapSideCounter_opCounter (st : FilterState) (side : OfferSide)
    (f : FilterCounter → FilterCounter) :
    (st.mapSideCounter side f).opCounter = st.opCounter := by
  cases side <;> rfl

@[simp]
theorem mapOpCounter_filteredOps (st : FilterState) (f : FilterCounter → FilterCounter) :
    (st.mapOpCounter f).filteredOps = st.filteredOps := rfl

@[simp]
theorem mapOpCounter_opCounter (st : FilterState) (f : FilterCounter → FilterCounter) :
    (st.mapOpCounter f).opCounter = f st.opCounter := rfl

/-- selectOpOrOffer returns one of exactly three shapes: the op itself (op
counter advances), the ignored marker (offer counter advances), or the
existing offer as an op, doubled into the originalOfferAsOp slot. -/
theorem selectOpOrOffer_cases (offerList : List HOffer) (offerIdx : ℕ) (m : MSO)
    (ign : List ℤ) (sel : SelectResult)
    (h : selectOpOrOffer offerList offerIdx m ign = Except.ok sel) :
    sel = { opToTransform := some m, originalOfferAsOp := none,
            incrementOp := true, isIgnoredOffer := false } ∨
    sel = { opToTransform := none, originalOfferAsOp := none,
            incrementOp := false, isIgnoredOffer := true } ∨
    (∃ offAsOp, sel = { opToTransform := some offAsOp, originalOfferAsOp := some offAsOp,
                        incrementOp := false, isIgnoredOffer := false }) := by
  simp only [selectOpOrOffer] at h
  by_cases hlt : offerIdx < offerList.length
  · rw [dif_pos hlt] at h
    by_cases hig : (offerList.get ⟨offerIdx, hlt⟩).ID ∈ ign
    · rw [if_pos hig] at h
      simp only [Except.ok.injEq] at h
      exact Or.inr (Or.inl h.symm)
    · rw [if_neg hig] at h
      by_cases hp : m.price <
          ((offerList.get ⟨offerIdx, hlt⟩).priceRN : ℚ) /
            ((offerList.get ⟨offerIdx, hlt⟩).priceRD : ℚ)
      · rw [if_pos hp] at h
        simp only [Except.ok.injEq] at h
        exact Or.inl h.symm
      · rw [if_neg hp] at h
        simp only [Except.ok.injEq] at h
        exact Or.inr (Or.inr ⟨convertOffer2MSO (offerList.get ⟨offerIdx, hlt⟩), h.symm⟩)
  · rw [dif_neg hlt] at h
    simp only [Except.ok.injEq] at h
    exact Or.inl h.symm

/-- One successful step of the merge loop either consumes a live offer (the
op cursor is unchanged and the accumulator is only extended at the front or
the back), or consumes the operation at the cursor, appending exactly its
kept image (or nothing, with a possible prepend, when the op is dropped). -/
theorem filterOpsStep_spec (bA qA : HAsset) (sells buys : List HOffer) (fn : FilterFn)
    (ign : List ℤ) (st : FilterState) (op : Operation) (st1 : FilterState)
    (h : filterOpsStep bA qA sells buys fn ign st op = Except.ok st1) :
    (st1.opCounter.idx = st.opCounter.idx ∧
      ∃ pre app, st1.filteredOps = pre ++ st.filteredOps ++ app) ∨
    (st1.opCounter.idx = st.opCounter.idx + 1 ∧
      ∃ pre,
        (match opKeepImage fn op with
         | some img => st1.filteredOps = pre ++ st.filteredOps ++ [img]
         | none => st1.filteredOps = pre ++ st.filteredOps)) := by
  cases op with
  | other t =>
    simp only [filterOpsStep, Except.ok.injEq] at h
    subst h
    refine Or.inr ⟨by simp, [], ?_⟩
    simp [opKeepImage]
  | mso o =>
    simp only [filterOpsStep] at h
    cases hside : selectBuySellList bA qA o with
    | error e => rw [hside] at h; exact absurd h (by simp)
    | ok side =>
      rw [hside] at h
      try simp only [] at h
      cases hsel : selectOpOrOffer (offersOf side sells buys) (st.sideCounter side).idx
          o ign with
      | error e => rw [hsel] at h; exact absurd h (by simp)
      | ok sel =>
        rw [hsel] at h
        try simp only [] at h
        rcases selectOpOrOffer_cases _ _ _ _ _ hsel with hsh | hsh | ⟨offAsOp, hsh⟩
        · -- the op itself is transformed; the op cursor advances
          subst hsh
          simp only [Bool.false_eq_true, if_false, if_true, eq_self_iff_true] at h
          by_cases hz : o.amount = 0
          · rw [if_pos hz] at h
            try simp only [] at h
            rw [if_pos (by trivial)] at h
            try simp only [] at h
            rw [if_neg (show ¬(o.price ≠ o.price ∨ o.amount ≠ o.amount) by simp)] at h
            injection h with h2
            subst h2
            refine Or.inr ⟨by simp, [], ?_⟩
            simp [opKeepImage, hz]
          · rw [if_neg hz] at h
            cases hfn : fn o with
            | error e => rw [hfn] at h; exact absurd h (by simp)
            | ok pr =>
              obtain ⟨newOpOpt, keep⟩ := pr
              rw [hfn] at h
              try simp only [] at h
              cases keep with
              | false =>
                rw [if_neg (show ¬(false = true) by simp)] at h
                cases newOpOpt with
                | none =>
                  try simp only [] at h
                  injection h with h2
                  subst h2
                  refine Or.inr ⟨by simp, [], ?_⟩
                  simp [opKeepImage, hz, hfn]
                | some n =>
                  try simp only [] at h
                  injection h with h2
                  subst h2
                  refine Or.inr ⟨by simp, [Operation.mso n], ?_⟩
                  simp [opKeepImage, hz, hfn]
              | true =>
                rw [if_pos (by trivial)] at h
                cases newOpOpt with
                | none => exact absurd h (by simp)
                | some n =>
                  try simp only [] at h
                  by_cases hne : o.price ≠ n.price ∨ o.amount ≠ n.amount
                  · rw [if_pos hne] at h
                    injection h with h2
                    subst h2
                    refine Or.inr ⟨by simp, [], ?_⟩
                    simp [opKeepImage, hz, hfn]
                  · rw [if_neg hne] at h
                    injection h with h2
                    subst h2
                    refine Or.inr ⟨by simp, [], ?_⟩
                    simp [opKeepImage, hz, hfn]
        · -- ignored offer: the offer cursor advances, nothing is emitted
          subst hsh
          simp only [Bool.false_eq_true, if_false, if_true, eq_self_iff_true] at h
          injection h with h2
          subst h2
          exact Or.inl ⟨by simp, [], [], by simp⟩
        · -- the live offer is transformed; the op cursor is unchanged
          subst hsh
          simp only [Bool.false_eq_true, if_false, if_true, eq_self_iff_true] at h
          by_cases hz : offAsOp.amount = 0
          · rw [if_pos hz] at h
            try simp only [] at h
            rw [if_pos (by trivial)] at h
            try simp only [] at h
            rw [if_pos (⟨by trivial, by trivial⟩ : _ ∧ _)] at h
            injection h with h2
            subst h2
            exact Or.inl ⟨by simp, [], [], by simp⟩
          · rw [if_neg hz] at h
            cases hfn : fn offAsOp with
            | error e => rw [hfn] at h; exact absurd h (by simp)
            | ok pr =>
              obtain ⟨newOpOpt, keep⟩ := pr
              rw [hfn] at h
              try simp only [] at h
              cases keep with
              | false =>
                rw [if_neg (show ¬(false = true) by simp)] at h
                cases newOpOpt with
                | none =>
                  try simp only [] at h
                  injection h with h2
                  subst h2
                  exact Or.inl ⟨by simp, [], [], by simp⟩
                | some n =>
                  try simp only [] at h
                  injection h with h2
                  subst h2
                  exact Or.inl ⟨by simp, [Operation.mso n], [], by simp⟩
              | true =>
                rw [if_pos (by trivial)] at h
                cases newOpOpt with
                | none => exact absurd h (by simp)
                | some n =>
                  try simp only [] at h
                  by_cases heq : offAsOp.price = n.price ∧ offAsOp.amount = n.amount
                  · rw [if_pos heq] at h
                    injection h with h2
                    subst h2
                    exact Or.inl ⟨by simp, [], [], by simp⟩
                  · rw [if_neg heq] at h
                    injection h with h2
                    subst h2
                    exact Or.inl ⟨by simp, [], [Operation.mso n], by simp⟩

/-- The merge loop only ever prepends to the front and appends to the back
of the accumulated output, and the appended part contains the kept images of
the remaining operations as a subsequence, in input order. -/
theorem filterOpsLoop_images (bA qA : HAsset) (sells buys : List HOffer)
    (ops : List Operation) (fn : FilterFn) (ign : List ℤ) :
    ∀ (fuel : ℕ) (st st' : FilterState),
      filterOpsLoop bA qA sells buys ops fn ign fuel st = Except.ok st' →
      ∃ P M, st'.filteredOps = P ++ st.filteredOps ++ M ∧
        List.Sublist (opKeepImages fn (ops.drop st.opCounter.idx)) M := by
  intro fuel
  induction fuel with
  | zero => intro st st' h; exact absurd h (by simp [filterOpsLoop])
  | succ fuel ih =>
    intro st st' h
    rw [filterOpsLoop] at h
    by_cases hidx : st.opCounter.idx < ops.length
    · rw [dif_pos hidx] at h
      cases hstep : filterOpsStep bA qA sells buys fn ign st
          (ops.get ⟨st.opCounter.idx, hidx⟩) with
      | error e => rw [hstep] at h; exact absurd h (by simp)
      | ok st1 =>
        rw [hstep] at h
        try simp only [] at h
        obtain ⟨P, M, hacc, hsub⟩ := ih st1 st' h
        rcases filterOpsStep_spec _ _ _ _ _ _ _ _ _ hstep with
          ⟨hidx1, pre, app, hacc1⟩ | ⟨hidx1, pre, him⟩
        · -- a live offer was consumed: the op cursor is unchanged
          rw [hidx1] at hsub
          refine ⟨P ++ pre, app ++ M, ?_, ?_⟩
          · rw [hacc, hacc1]
            simp [List.append_assoc]
          · exact hsub.trans (List.sublist_append_right app M)
        · -- the operation at the cursor was consumed
          rw [hidx1] at hsub
          have hdrop : ops.drop st.opCounter.idx =
              ops.get ⟨st.opCounter.idx, hidx⟩ :: ops.drop (st.opCounter.idx + 1) :=
            List.drop_eq_getElem_cons hidx
          cases him2 : opKeepImage fn (ops.get ⟨st.opCounter.idx, hidx⟩) with
          | none =>
            simp only [him2] at him
            refine ⟨P ++ pre, M, ?_, ?_⟩
            · rw [hacc, him]
              simp [List.append_assoc]
            · rw [hdrop]
              simp only [opKeepImages, List.filterMap_cons, him2] at hsub ⊢
              exact hsub
          | some img =>
            simp only [him2] at him
            refine ⟨P ++ pre, img :: M, ?_, ?_⟩
            · rw [hacc, him]
              simp [List.append_assoc]
            · rw [hdrop]
              simp only [opKeepImages, List.filterMap_cons, him2] at hsub ⊢
              exact hsub.cons₂ img
    · rw [dif_neg hidx] at h
      injection h with h2
      subst h2
      refine ⟨[], [], by simp, ?_⟩
      rw [List.drop_eq_nil_of_le (le_of_not_lt hidx)]
      simp [opKeepImages]

/-- C1 (amended): the operations the filter keeps — non-ManageSellOffer ops,
delete-sentinel ops, and ops the filter function keeps (possibly adjusted in
place) — appear in filterOps' output in exactly their input order, across
both the buy and the sell segment; insertions between them come only from
live offers, and an operation the filter function drops is either removed or
re-emitted as a prepended delete at the very front of the output (and may
therefore precede, out of order, operations from its own segment — see the
counterexample). -/
theorem filterOps_keeps_input_order (bA qA : HAsset) (sells buys : List HOffer)
    (ops : List Operation) (fn : FilterFn) (out : List Operation)
    (hrun : filterOps bA qA sells buys ops fn = Except.ok out) :
    List.Sublist (opKeepImages fn ops) out := by
  simp only [filterOps] at hrun
  cases hloop : filterOpsLoop bA qA sells buys ops fn (ignoreOfferIDs ops)
      (ops.length + sells.length + buys.length + 1) initialFilterState with
  | error e => rw [hloop] at hrun; exact absurd hrun (by simp)
  | ok st =>
    rw [hloop] at hrun
    simp only [Except.ok.injEq] at hrun
    obtain ⟨P, M, hacc, hsub⟩ := filterOpsLoop_images bA qA sells buys ops fn
      (ignoreOfferIDs ops) (ops.length + sells.length + buys.length + 1)
      initialFilterState st hloop
    simp only [initialFilterState, List.drop_zero, List.append_nil] at hacc hsub
    rw [← hrun, deleteRemainingOffers_eq, deleteRemainingOffers_eq, hacc]
    exact hsub.trans ((List.sublist_append_right P M).trans
      ((List.sublist_append_right _ _).trans (List.sublist_append_right _ _)))

/-- C1 (counterexample to the claim as stated): both input operations are
sell-segment operations, in input order [offerID 1, offerID 2]; the filter
keeps the first and drops the second by transforming it into its delete.
Because dropped replacements are prepended to the whole output, the output
lists the operation derived from offerID 2 BEFORE the one derived from
offerID 1 — the sell segment's relative order is not preserved. -/
theorem filterOps_reorders_on_drop_counterexample :
    filterOps assetA assetB [] [] [Operation.mso cexOp1, Operation.mso cexOp2]
      dropSecondFn =
      Except.ok [Operation.mso { cexOp2 with amount := 0 }, Operation.mso cexOp1] := by
  norm_num [filterOps, filterOpsLoop, filterOpsStep, initialFilterState, ignoreOfferIDs,
    deleteRemainingOffers_eq, selectBuySellList, isSelling, selectOpOrOffer, offersOf,
    FilterState.sideCounter, FilterState.mapOpCounter, dropSecondFn, cexOp1, cexOp2,
    assetA, assetB]

/-- Witness for C1 (amended) at the counterexample input: the kept image list
is exactly [cexOp1] and it is a sublist of the output. -/
theorem filterOps_keeps_input_order_witness :
    List.Sublist (opKeepImages dropSecondFn [Operation.mso cexOp1, Operation.mso cexOp2])
      [Operation.mso { cexOp2 with amount := 0 }, Operation.mso cexOp1] :=
  filterOps_keeps_input_order assetA assetB [] []
    [Operation.mso cexOp1, Operation.mso cexOp2] dropSecondFn
    [Operation.mso { cexOp2 with amount := 0 }, Operation.mso cexOp1]
    (by norm_num [filterOps, filterOpsLoop, filterOpsStep, initialFilterState,
      ignoreOfferIDs, deleteRemainingOffers_eq, selectBuySellList, isSelling,
      selectOpOrOffer, offersOf, FilterState.sideCounter, FilterState.mapOpCounter,
      dropSecondFn, cexOp1, cexOp2, assetA, assetB])

/-! ## C10: MakeDataKeysDag is a topological ordering -/

/-- A successful List.lookup pins an actual entry of the map. -/
theorem lookup_mem : ∀ {dm : DataMap} {k : DataKey} {ds : List DataKey},
    dm.lookup k = some ds → (k, ds) ∈ dm := by
  intro dm
  induction dm with
  | nil => intro k ds h; exact absurd h (by simp [List.lookup])
  | cons p l ih =>
    obtain ⟨pk, pv⟩ := p
    intro k ds h
    rw [List.lookup] at h
    by_cases hk : k = pk
    · subst hk
      simp only [beq_self_eq_true, Option.some.injEq] at h
      subst h
      exact List.mem_cons_self _ _
    · have hne : (k == pk) = false := beq_eq_false_iff_ne.mpr hk
      simp only [hne] at h
      exact List.mem_cons_of_mem _ (ih h)

/-- Basic bookkeeping of dagHelper: the final traversed set is the initial
one plus exactly the emitted keys, the emitted keys are distinct and fresh,
and every input key ends up traversed. -/
theorem dagHelper_basic (dm : DataMap) : ∀ (fuel : ℕ) (input tr out tr' : List DataKey),
    dagHelper dm fuel input tr = some (out, tr') →
    ((∀ x, x ∈ tr' ↔ x ∈ tr ∨ x ∈ out) ∧
      out.Nodup ∧ (∀ k ∈ out, k ∉ tr) ∧ (∀ k ∈ input, k ∈ tr ∨ k ∈ out)) := by
  intro fuel
  induction fuel with
  | zero => intro input tr out tr' h; exact absurd h (by simp [dagHelper])
  | succ fuel ih =>
    intro input tr out tr' h
    cases input with
    | nil =>
      simp only [dagHelper, Option.some.injEq, Prod.mk.injEq] at h
      obtain ⟨hout, htr⟩ := h
      subst hout htr
      simp
    | cons key rest =>
      simp only [dagHelper] at h
      by_cases hk : key ∈ tr
      · rw [if_pos hk] at h
        obtain ⟨ha, hn, hc, hd⟩ := ih rest tr out tr' h
        refine ⟨ha, hn, hc, ?_⟩
        intro k hkk
        rcases List.mem_cons.mp hkk with rfl | hm
        · exact Or.inl hk
        · exact hd k hm
      · rw [if_neg hk] at h
        cases hlk : dm.lookup key with
        | none => rw [hlk] at h; exact absurd h (by simp)
        | some ds =>
          rw [hlk] at h
          try simp only [] at h
          cases h1 : dagHelper dm fuel ds (key :: tr) with
          | none => rw [h1] at h; exact absurd h (by simp)
          | some r1 =>
            obtain ⟨out1, tr2⟩ := r1
            rw [h1] at h
            try simp only [] at h
            cases h2 : dagHelper dm fuel rest tr2 with
            | none => rw [h2] at h; exact absurd h (by simp)
            | some r2 =>
              obtain ⟨out2, tr3⟩ := r2
              rw [h2] at h
              simp only [Option.some.injEq, Prod.mk.injEq] at h
              obtain ⟨hout, htr⟩ := h
              subst hout htr
              obtain ⟨a1, n1, c1, d1⟩ := ih ds (key :: tr) out1 tr2 h1
              obtain ⟨a2, n2, c2, d2⟩ := ih rest tr2 out2 tr3 h2
              have hkey1 : key ∉ out1 := fun hm => (c1 key hm) (by simp)
              have hkey2 : key ∉ out2 := fun hm =>
                (c2 key hm) ((a1 key).mpr (Or.inl (by simp)))
              have hdisj : ∀ x ∈ out1, x ∉ out2 := fun x hx1 hx2 =>
                (c2 x hx2) ((a1 x).mpr (Or.inr hx1))
              refine ⟨?_, ?_, ?_, ?_⟩
              · intro x
                constructor
                · intro hx
                  rcases (a2 x).mp hx with hx2 | hx2
                  · rcases (a1 x).mp hx2 with hx1 | hx1
                    · rcases List.mem_cons.mp hx1 with rfl | hx0
                      · exact Or.inr (by simp)
                      · exact Or.inl hx0
                    · exact Or.inr (by simp [hx1])
                  · exact Or.inr (by simp [hx2])
                · intro hx
                  rcases hx with hx | hx
                  · exact (a2 x).mpr (Or.inl ((a1 x).mpr (Or.inl (List.mem_cons_of_mem _ hx))))
                  · rcases List.mem_append.mp hx with hx1 | hx1
                    · exact (a2 x).mpr (Or.inl ((a1 x).mpr (Or.inr hx1)))
                    · rcases List.mem_cons.mp hx1 with rfl | hx2
                      · exact (a2 x).mpr (Or.inl ((a1 x).mpr (Or.inl (by simp))))
                      · exact (a2 x).mpr (Or.inr hx2)
              · rw [List.nodup_append]
                refine ⟨n1, List.nodup_cons.mpr ⟨hkey2, n2⟩, ?_⟩
                intro a ha hb
                rcases List.mem_cons.mp hb with rfl | hb2
                · exact hkey1 ha
                · exact hdisj a ha hb2
              · intro k hk2
                rcases List.mem_append.mp hk2 with h1m | h1m
                · exact fun htr0 => (c1 k h1m) (List.mem_cons_of_mem _ htr0)
                · rcases List.mem_cons.mp h1m with rfl | h2m
                  · exact hk
                  · exact fun htr0 =>
                      (c2 k h2m) ((a1 k).mpr (Or.inl (List.mem_cons_of_mem _ htr0)))
              · intro k hk2
                rcases List.mem_cons.mp hk2 with rfl | hmr
                · exact Or.inr (by simp)
                · rcases d2 k hmr with h2m | h2m
                  · rcases (a1 k).mp h2m with h1m | h1m
                    · rcases List.mem_cons.mp h1m with rfl | h0
                      · exact Or.inr (by simp)
                      · exact Or.inl h0
                    · exact Or.inr (by simp [h1m])
                  · exact Or.inr (by simp [h2m])

/-- Unpack a dependency-edge into its map entry. -/
theorem mem_depsOf {dm : DataMap} {k d : DataKey} (hd : d ∈ depsOf dm k) :
    ∃ dl, dm.lookup k = some dl ∧ d ∈ dl := by
  unfold depsOf at hd
  cases hcase : dm.lookup k with
  | none => rw [hcase] at hd; simp at hd
  | some dl =>
    rw [hcase] at hd
    simp only [Option.getD_some] at hd
    exact ⟨dl, rfl, hd⟩

/-- A ranking function witnessing acyclicity decreases along dependency
edges. -/
theorem rank_lt_of_depsOf (dm : DataMap) (rank : DataKey → ℕ)
    (hrank : ∀ p ∈ dm, ∀ d ∈ p.2, rank d < rank p.1) {k d : DataKey}
    (hd : d ∈ depsOf dm k) : rank d < rank k := by
  obtain ⟨dl, h1, h2⟩ := mem_depsOf hd
  exact hrank (k, dl) (lookup_mem h1) d h2

/-- Reachability is monotone in the start set. -/
theorem reach_mono (dm : DataMap) {S T : List DataKey} (hS : ∀ x ∈ S, x ∈ T) :
    ∀ {k}, Reach dm S k → Reach dm T k := by
  intro k h
  induction h with
  | base hk => exact Reach.base (hS _ hk)
  | step _ hd ih => exact Reach.step ih hd

/-- Reachability composes through an intermediate start set. -/
theorem reach_trans (dm : DataMap) {S T : List DataKey}
    (hST : ∀ s ∈ S, Reach dm T s) : ∀ {k}, Reach dm S k → Reach dm T k := by
  intro k h
  induction h with
  | base hk => exact hST _ hk
  | step _ hd ih => exact Reach.step ih hd

/-- Along a ranking function, anything reachable from a start set is in the
set or strictly below some member of it. -/
theorem reach_rank_le (dm : DataMap) (rank : DataKey → ℕ)
    (hrank : ∀ p ∈ dm, ∀ d ∈ p.2, rank d < rank p.1) {S : List DataKey} :
    ∀ {k}, Reach dm S k → k ∈ S ∨ ∃ s ∈ S, rank k < rank s := by
  intro k h
  induction h with
  | base hk => exact Or.inl hk
  | step ha hd ih =>
    have hba := rank_lt_of_depsOf dm rank hrank hd
    rcases ih with hm | ⟨s, hs, hlt⟩
    · exact Or.inr ⟨_, hm, hba⟩
    · exact Or.inr ⟨s, hs, hba.trans hlt⟩

/-- The ordering invariant of dagHelper under an acyclicity rank: every
emitted key is reachable from the input, and each of its direct dependencies
was either already traversed on entry or appears strictly before it in the
emitted list. -/
theorem dagHelper_sorted (dm : DataMap) (rank : DataKey → ℕ)
    (hrank : ∀ p ∈ dm, ∀ d ∈ p.2, rank d < rank p.1) :
    ∀ (fuel : ℕ) (input tr out tr' : List DataKey),
      dagHelper dm fuel input tr = some (out, tr') →
      ((∀ k ∈ out, Reach dm input k) ∧
        (∀ k ∈ out, ∀ d ∈ depsOf dm k,
          d ∈ tr ∨ ∃ l1 l2, out = l1 ++ k :: l2 ∧ d ∈ l1)) := by
  intro fuel
  induction fuel with
  | zero => intro input tr out tr' h; exact absurd h (by simp [dagHelper])
  | succ fuel ih =>
    intro input tr out tr' h
    cases input with
    | nil =>
      simp only [dagHelper, Option.some.injEq, Prod.mk.injEq] at h
      obtain ⟨hout, htr⟩ := h
      subst hout htr
      exact ⟨by simp, by simp⟩
    | cons key rest =>
      simp only [dagHelper] at h
      by_cases hk : key ∈ tr
      · rw [if_pos hk] at h
        obtain ⟨r2, o2⟩ := ih rest tr out tr' h
        exact ⟨fun k hkk =>
          reach_mono dm (fun x hx => List.mem_cons_of_mem _ hx) (r2 k hkk), o2⟩
      · rw [if_neg hk] at h
        cases hlk : dm.lookup key with
        | none => rw [hlk] at h; exact absurd h (by simp)
        | some ds =>
          rw [hlk] at h
          try simp only [] at h
          cases h1 : dagHelper dm fuel ds (key :: tr) with
          | none => rw [h1] at h; exact absurd h (by simp)
          | some r1 =>
            obtain ⟨out1, tr2⟩ := r1
            rw [h1] at h
            try simp only [] at h
            cases h2 : dagHelper dm fuel rest tr2 with
            | none => rw [h2] at h; exact absurd h (by simp)
            | some r2p =>
              obtain ⟨out2, tr3⟩ := r2p
              rw [h2] at h
              simp only [Option.some.injEq, Prod.mk.injEq] at h
              obtain ⟨hout, htr⟩ := h
              subst hout htr
              obtain ⟨R1, O1⟩ := ih ds (key :: tr) out1 tr2 h1
              obtain ⟨R2, O2⟩ := ih rest tr2 out2 tr3 h2
              obtain ⟨a1, n1, c1, d1⟩ := dagHelper_basic dm fuel ds (key :: tr) out1 tr2 h1
              have hdepsKey : depsOf dm key = ds := by
                unfold depsOf
                rw [hlk]
                rfl
              have hdsRank : ∀ s ∈ ds, rank s < rank key := fun s hs =>
                hrank (key, ds) (lookup_mem hlk) s hs
              have hreachKey : ∀ s ∈ ds, Reach dm (key :: rest) s := fun s hs =>
                Reach.step (Reach.base (List.mem_cons_self key rest))
                  (hdepsKey ▸ hs)
              refine ⟨?_, ?_⟩
              · intro k hkk
                rcases List.mem_append.mp hkk with hm | hm
                · exact reach_trans dm hreachKey (R1 k hm)
                · rcases List.mem_cons.mp hm with rfl | hm2
                  · exact Reach.base (by simp)
                  · exact reach_mono dm (fun x hx => List.mem_cons_of_mem _ hx) (R2 k hm2)
              · intro k hkk d hd
                rcases List.mem_append.mp hkk with hm | hm
                · -- k came from the dependency subtree of key
                  rcases O1 k hm d hd with hd1 | ⟨l1, l2, hsplit, hdl⟩
                  · rcases List.mem_cons.mp hd1 with rfl | hd2
                    · -- d = key would close a cycle through key: impossible
                      exfalso
                      have h1r : rank d < rank k := rank_lt_of_depsOf dm rank hrank hd
                      rcases reach_rank_le dm rank hrank (R1 k hm) with hm2 | ⟨s, hs, hlt⟩
                      · have := hdsRank k hm2
                        omega
                      · have := hdsRank s hs
                        omega
                    · exact Or.inl hd2
                  · right
                    refine ⟨l1, l2 ++ key :: out2, ?_, hdl⟩
                    rw [hsplit]
                    simp
                · rcases List.mem_cons.mp hm with rfl | hm2
                  · -- k is key itself; its deps are ds and all precede it
                    rw [hdepsKey] at hd
                    rcases d1 d hd with hd1 | hd1
                    · rcases List.mem_cons.mp hd1 with rfl | hd2
                      · exfalso
                        have : rank d < rank d := hdsRank d hd
                        omega
                      · exact Or.inl hd2
                    · exact Or.inr ⟨out1, out2, rfl, hd1⟩
                  · -- k came from the rest of the input
                    rcases O2 k hm2 d hd with hd2 | ⟨l1, l2, hsplit, hdl⟩
                    · rcases (a1 d).mp hd2 with hd3 | hd3
                      · rcases List.mem_cons.mp hd3 with rfl | hd4
                        · right
                          obtain ⟨s, t, hst⟩ := List.append_of_mem hm2
                          refine ⟨out1 ++ d :: s, t, ?_, by simp⟩
                          rw [hst]
                          simp
                        · exact Or.inl hd4
                      · right
                        obtain ⟨s, t, hst⟩ := List.append_of_mem hm2
                        refine ⟨out1 ++ key :: s, t, ?_, by simp [hd3]⟩
                        rw [hst]
                        simp
                    · right
                      refine ⟨out1 ++ key :: l1, l2, ?_, by simp [hdl]⟩
                      rw [hsplit]
                      simp

/-- Growing the traversed set never increases the remaining work. -/
theorem dagWeight_anti (dm : DataMap) : ∀ (tr tr' : List DataKey),
    (∀ x ∈ tr, x ∈ tr') → dagWeight dm tr' ≤ dagWeight dm tr := by
  induction dm with
  | nil => intro tr tr' h; simp [dagWeight]
  | cons p dmrest ih =>
    intro tr tr' h
    have ih2 := ih tr tr' h
    simp only [dagWeight, List.filter_cons] at ih2 ⊢
    by_cases h1 : p.1 ∈ tr'
    · rw [if_neg (by simp [h1])]
      by_cases h2 : p.1 ∈ tr
      · rw [if_neg (by simp [h2])]
        exact ih2
      · rw [if_pos (by simp [h2])]
        simp only [List.map_cons, List.sum_cons]
        omega
    · have h2 : p.1 ∉ tr := fun hx => h1 (h _ hx)
      rw [if_pos (by simp [h1]), if_pos (by simp [h2])]
      simp only [List.map_cons, List.sum_cons]
      omega

/-- Traversing a fresh key present in the map pays for its whole entry. -/
theorem dagWeight_insert (dm : DataMap) : ∀ (key : DataKey) (ds tr : List DataKey),
    key ∉ tr → dm.lookup key = some ds →
    dagWeight dm (key :: tr) + ds.length + 1 ≤ dagWeight dm tr := by
  induction dm with
  | nil => intro key ds tr _ hlk; exact absurd hlk (by simp [List.lookup])
  | cons p dmrest ih =>
    obtain ⟨pk, pv⟩ := p
    intro key ds tr hk hlk
    rw [List.lookup] at hlk
    by_cases hkey : key = pk
    · subst hkey
      simp only [beq_self_eq_true, Option.some.injEq] at hlk
      subst hlk
      have ha := dagWeight_anti dmrest tr (key :: tr)
        (fun x hx => List.mem_cons_of_mem _ hx)
      simp only [dagWeight, List.filter_cons] at ha ⊢
      rw [if_neg (by simp), if_pos (by simp [hk])]
      simp only [List.map_cons, List.sum_cons]
      omega
    · have hne : (key == pk) = false := beq_eq_false_iff_ne.mpr hkey
      simp only [hne] at hlk
      have ih2 := ih key ds tr hk hlk
      simp only [dagWeight, List.filter_cons] at ih2 ⊢
      by_cases h2 : pk ∈ tr
      · rw [if_neg (by simp [h2]), if_neg (by simp [h2])]
        exact ih2
      · have h3 : (pk:DataKey) ∉ key :: tr := by
          intro hx
          rcases List.mem_cons.mp hx with he | hx2
          · exact hkey he.symm
          · exact h2 hx2
        rw [if_pos (by simp [h3]), if_pos (by simp [h2])]
        simp only [List.map_cons, List.sum_cons]
        omega

/-- On the empty traversed set, the remaining work is the whole map's cost. -/
theorem dagWeight_nil (dm : DataMap) :
    dagWeight dm [] = (dm.map fun p => p.2.length + 1).sum := by
  unfold dagWeight
  congr 1
  congr 1
  apply List.filter_eq_self.mpr
  intro a _
  simp

/-- Fuel sufficiency: with every input key and every dependency present in
the map, dagHelper succeeds whenever the fuel exceeds the measure. -/
theorem dagHelper_total (dm : DataMap)
    (hclosed : ∀ p ∈ dm, ∀ d ∈ p.2, (dm.lookup d).isSome) :
    ∀ (fuel : ℕ) (input tr : List DataKey),
      (∀ k ∈ input, (dm.lookup k).isSome) →
      dagMeasure dm input tr < fuel →
      (dagHelper dm fuel input tr).isSome := by
  intro fuel
  induction fuel with
  | zero => intro input tr _ hm; exact absurd hm (by omega)
  | succ fuel ih =>
    intro input tr hin hm
    cases input with
    | nil => simp [dagHelper]
    | cons key rest =>
      simp only [dagHelper]
      by_cases hk : key ∈ tr
      · rw [if_pos hk]
        refine ih rest tr (fun k hk2 => hin k (List.mem_cons_of_mem _ hk2)) ?_
        simp only [dagMeasure, List.length_cons] at hm ⊢
        omega
      · rw [if_neg hk]
        have hks := hin key (List.mem_cons_self _ _)
        obtain ⟨ds, hlk⟩ := Option.isSome_iff_exists.mp hks
        rw [hlk]
        have hins := dagWeight_insert dm key ds tr hk hlk
        have hdsin : ∀ k ∈ ds, (dm.lookup k).isSome := fun k hk2 =>
          hclosed (key, ds) (lookup_mem hlk) k hk2
        have hm1 : dagMeasure dm ds (key :: tr) < fuel := by
          simp only [dagMeasure, List.length_cons] at hm ⊢
          omega
        obtain ⟨⟨out1, tr2⟩, h1⟩ :=
          Option.isSome_iff_exists.mp (ih ds (key :: tr) hdsin hm1)
        simp only []
        rw [h1]
        simp only []
        have hsub : ∀ x ∈ tr, x ∈ tr2 := by
          obtain ⟨a1, _, _, _⟩ := dagHelper_basic dm fuel ds (key :: tr) out1 tr2 h1
          intro x hx
          exact (a1 x).mpr (Or.inl (List.mem_cons_of_mem _ hx))
        have hkeytr2 : key ∈ tr2 := by
          obtain ⟨a1, _, _, _⟩ := dagHelper_basic dm fuel ds (key :: tr) out1 tr2 h1
          exact (a1 key).mpr (Or.inl (List.mem_cons_self _ _))
        have hanti := dagWeight_anti dm (key :: tr) tr2 (by
          intro x hx
          rcases List.mem_cons.mp hx with rfl | hx2
          · exact hkeytr2
          · exact hsub x hx2)
        have hm2 : dagMeasure dm rest tr2 < fuel := by
          simp only [dagMeasure, List.length_cons] at hm ⊢
          omega
        obtain ⟨⟨out2, tr3⟩, h2⟩ := Option.isSome_iff_exists.mp
          (ih rest tr2 (fun k hk2 => hin k (List.mem_cons_of_mem _ hk2)) hm2)
        rw [h2]
        simp

/-- C10: For every input list of data keys whose dependency graph (via
DirectDependencies) is acyclic — witnessed by a rank function decreasing
along dependency edges — and whose keys, and all dependencies recorded in
the map, are present in InitializedData, MakeDataKeysDag succeeds and
returns a list that contains each input key and each of its transitive
dependencies exactly once (the list has no duplicates, covers exactly the
reachable keys), and in which every key appears after all of its direct
dependencies. -/
theorem MakeDataKeysDag_topological (dm : DataMap) (input : List DataKey)
    (rank : DataKey → ℕ)
    (hrank : ∀ p ∈ dm, ∀ d ∈ p.2, rank d < rank p.1)
    (hin : ∀ k ∈ input, (dm.lookup k).isSome)
    (hclosed : ∀ p ∈ dm, ∀ d ∈ p.2, (dm.lookup d).isSome) :
    ∃ out, MakeDataKeysDag dm input = some out ∧
      out.Nodup ∧
      (∀ k ∈ input, k ∈ out) ∧
      (∀ k ∈ out, Reach dm input k) ∧
      (∀ k, Reach dm input k → k ∈ out) ∧
      (∀ k ∈ out, ∀ d ∈ depsOf dm k, ∃ l1 l2, out = l1 ++ k :: l2 ∧ d ∈ l1) := by
  have hmeas : dagMeasure dm input [] < dagFuel dm input := by
    simp only [dagMeasure, dagFuel, dagWeight_nil]
    omega
  obtain ⟨⟨out, tr'⟩, hrun⟩ := Option.isSome_iff_exists.mp
    (dagHelper_total dm hclosed (dagFuel dm input) input [] hin hmeas)
  obtain ⟨_, hnd, _, hcov⟩ :=
    dagHelper_basic dm (dagFuel dm input) input [] out tr' hrun
  obtain ⟨hreach, hord⟩ :=
    dagHelper_sorted dm rank hrank (dagFuel dm input) input [] out tr' hrun
  have hinput : ∀ k ∈ input, k ∈ out := by
    intro k hk
    rcases hcov k hk with hfalse | hk2
    · exact absurd hfalse (List.not_mem_nil k)
    · exact hk2
  have hord2 : ∀ k ∈ out, ∀ d ∈ depsOf dm k,
      ∃ l1 l2, out = l1 ++ k :: l2 ∧ d ∈ l1 := by
    intro k hk d hd
    rcases hord k hk d hd with hfalse | hsplit
    · exact absurd hfalse (List.not_mem_nil d)
    · exact hsplit
  refine ⟨out, ?_, hnd, hinput, hreach, ?_, hord2⟩
  · unfold MakeDataKeysDag
    rw [hrun]
    rfl
  · intro k hk
    induction hk with
    | base hk2 => exact hinput _ hk2
    | step _ hd ihr =>
      obtain ⟨l1, l2, hsplit, hdl⟩ := hord2 _ ihr _ hd
      rw [hsplit]
      exact List.mem_append.mpr (Or.inl hdl)

/-- Witness for C10 at a concrete two-node map 0 → 1: all three hypotheses
hold by computation and the topological-order conclusion follows. -/
theorem MakeDataKeysDag_topological_witness :
    ((∀ p ∈ ([(0, [1]), (1, [])] : DataMap), ∀ d ∈ p.2,
        (if d = 0 then 1 else 0) < (if p.1 = 0 then 1 else 0)) ∧
      (∀ k ∈ ([0] : List DataKey),
        (([(0, [1]), (1, [])] : DataMap).lookup k).isSome) ∧
      (∀ p ∈ ([(0, [1]), (1, [])] : DataMap), ∀ d ∈ p.2,
        (([(0, [1]), (1, [])] : DataMap).lookup d).isSome)) ∧
    (∃ out, MakeDataKeysDag ([(0, [1]), (1, [])] : DataMap) [0] = some out ∧
      out.Nodup ∧
      (∀ k ∈ ([0] : List DataKey), k ∈ out) ∧
      (∀ k ∈ out, Reach ([(0, [1]), (1, [])] : DataMap) [0] k) ∧
      (∀ k, Reach ([(0, [1]), (1, [])] : DataMap) [0] k → k ∈ out) ∧
      (∀ k ∈ out, ∀ d ∈ depsOf ([(0, [1]), (1, [])] : DataMap) k,
        ∃ l1 l2, out = l1 ++ k :: l2 ∧ d ∈ l1)) :=
  ⟨⟨by decide, by decide, by decide⟩,
    MakeDataKeysDag_topological ([(0, [1]), (1, [])] : DataMap) [0]
      (fun k => if k = 0 then 1 else 0) (by decide) (by decide) (by decide)⟩

end Kelp
